import Mathlib

/-!
# soundwave: STFT front ends (`main.cpp`, `spectogram.cpp`)

Shallow embedding of the two analysis programs of the repository and the
properties of their framing, windowing, band aggregation and ring mapping.

Conventions of the embedding

* `int` is 32-bit two's complement: an `int` operation on run-time data is
  followed by `wrapInt`; `sf_count_t` is 64-bit (`wrapLong`); a subscript of
  `std::vector` is converted to `size_t` (`toSizeT`).
* `double` arithmetic and the samples are taken as exact numbers: the
  trigonometric, square-root and Fourier parts live in `ℝ`.
* the `float` arithmetic of the ring stage of `spectogram.cpp` (the cast of a band
  mean to `float`, `normVal`, `radius`) is binary32: every operation rounds to
  nearest, ties to even, with overflow to an infinity and NaN results (`F32`,
  `toF32`); the definitions are generic over an ordered field and so run on `ℚ`.
* a read outside the sample buffer has no defined value (`none`).
* the library routines the programs call (`fftw_execute`, `cv::normalize`,
  `convertTo`, `std::hypot`) are embedded by the computation the library
  documents; `cv::log` is a parameter of the renderer.
-/

namespace Soundwave

/-! ## Machine integers -/

/-- Value of an integer once stored in a 32-bit `int`
(`2147483648 = 2^31`, `4294967296 = 2^32`). -/
def wrapInt (x : Int) : Int := (x + 2147483648) % 4294967296 - 2147483648

/-- Value of an integer once stored in a 64-bit `sf_count_t`
(`9223372036854775808 = 2^63`). -/
def wrapLong (x : Int) : Int :=
  (x + 9223372036854775808) % 18446744073709551616 - 9223372036854775808

/-- Conversion of a signed index to the `size_t` subscript of
`std::vector::operator[]` (`18446744073709551616 = 2^64`). -/
def toSizeT (x : Int) : Nat := (x % 18446744073709551616).toNat

/-- The read `audio[idx]` of the interleaved sample buffer: defined only when the
subscript lies inside the vector. -/
def readSample {α : Type} (audio : List α) (idx : Int) : Option α := audio[toSizeT idx]?

/-- Indices visited by `for (int t = 0; t < n; t++)`. -/
def forRange (n : Int) : List Int := (List.range n.toNat).map Int.ofNat

/-- A vector all of whose entries were computed from defined reads. -/
def allDefined {α : Type} : List (Option α) → Option (List α)
  | [] => some []
  | none :: _ => none
  | some a :: xs => (allDefined xs).map fun as => a :: as

/-! ## Binary32 -/

/-- A binary32 value: a finite number, an infinity with its sign, or a NaN. -/
inductive F32 (α : Type) where
  | fin (x : α)
  | inf (negative : Bool)
  | nan

section Float

variable {α : Type} [LinearOrderedField α] [FloorRing α]

/-- Round to the nearest integer, ties to the even one. -/
def roundEven (x : α) : Int :=
  if x - (Int.floor x : α) < 1 / 2 then Int.floor x
  else if 1 / 2 < x - (Int.floor x : α) then Int.floor x + 1
  else if Int.floor x % 2 = 0 then Int.floor x
  else Int.floor x + 1

/-- `FLT_MAX = (2^24 - 1) * 2^104`. -/
def FLT_MAX : α := 340282346638528859811704183484516925440

/-- Exponent of the binade of `x`, not below the smallest normal exponent `-126`. -/
def binade (x : α) : Int := max (Int.log 2 |x|) (-126)

/-- Spacing of the binary32 numbers around `x` (24 significant bits). -/
def ulp (x : α) : α := (2 : α) ^ (binade x - 23)

/-- The multiple of `ulp x` nearest to `x`, ties to even. -/
def roundGrid (x : α) : α := (roundEven (x / ulp x) : α) * ulp x

/-- Rounding of an exact result to binary32 (round to nearest, ties to even,
overflow to an infinity). -/
def toF32 (x : α) : F32 α :=
  if FLT_MAX < roundGrid x then F32.inf false
  else if roundGrid x < -FLT_MAX then F32.inf true
  else F32.fin (roundGrid x)

/-- Binary32 addition. -/
def F32.add : F32 α → F32 α → F32 α
  | .fin x, .fin y => toF32 (x + y)
  | .fin _, .inf s => .inf s
  | .inf s, .fin _ => .inf s
  | .inf s, .inf t => if s = t then .inf s else .nan
  | .nan, _ => .nan
  | _, .nan => .nan

/-- Binary32 multiplication. -/
def F32.mul : F32 α → F32 α → F32 α
  | .fin x, .fin y => toF32 (x * y)
  | .fin x, .inf s => if x = 0 then .nan else .inf (xor s (decide (x < 0)))
  | .inf s, .fin y => if y = 0 then .nan else .inf (xor s (decide (y < 0)))
  | .inf s, .inf t => .inf (xor s t)
  | .nan, _ => .nan
  | _, .nan => .nan

/-- Binary32 division (zeros are taken as positive). -/
def F32.div : F32 α → F32 α → F32 α
  | .fin x, .fin y =>
    if y = 0 then (if x = 0 then .nan else .inf (decide (x < 0))) else toF32 (x / y)
  | .fin _, .inf _ => .fin 0
  | .inf s, .fin y => .inf (xor s (decide (y < 0)))
  | .inf _, .inf _ => .nan
  | .nan, _ => .nan
  | _, .nan => .nan

/-- The comparison `a < b` of binary32 values (false when a NaN is involved). -/
def F32.lt : F32 α → F32 α → Bool
  | .fin x, .fin y => decide (x < y)
  | .fin _, .inf s => !s
  | .inf s, .fin _ => s
  | .inf s, .inf t => s && !t
  | .nan, _ => false
  | _, .nan => false

end Float

/-! ## FFTW -/

/-- Bin `k` of the real-input transform of the length-`n` frame `x`, as FFTW
defines it: `Y_k = Σ_j X_j e^{-2πi jk/n}`, given as (real, imaginary). -/
noncomputable def dftBin (n : Nat) (x : List ℝ) (k : Nat) : ℝ × ℝ :=
  (∑ j ∈ Finset.range n, x.getD j 0 * Real.cos (2 * Real.pi * j * k / n),
   -∑ j ∈ Finset.range n, x.getD j 0 * Real.sin (2 * Real.pi * j * k / n))

/-- The array `out` after `fftw_execute(plan)` on the frame `x`
(`fftw_plan_dft_r2c_1d(n, in, out, ...)`), as a function of the bin index; the plan
fills the bins `0 .. n/2`. -/
noncomputable def fftwExecute (n : Int) (x : List ℝ) : Int → ℝ × ℝ :=
  fun k => dftBin n.toNat x k.toNat

/-! ## `main.cpp`: framing -/

namespace MainCpp

/-- `const int NFFT = 1024;` -/
def NFFT : Int := 1024

/-- `const int HOP = NFFT/4;` -/
def HOP : Int := wrapInt (Int.tdiv NFFT 4)

/-- `const int numFrames = 1 + (sfinfo.frames - NFFT)/HOP;` computed in 64 bits
(`sfinfo.frames` is an `sf_count_t`) and then narrowed to `int`. -/
def numFrames (frames : Int) : Int :=
  wrapInt (wrapLong (1 + wrapLong (Int.tdiv (wrapLong (frames - NFFT)) HOP)))

/-- `int offset = t*HOP;` -/
def offset (t : Int) : Int := wrapInt (t * HOP)

/-- The `int` expression `(offset+i)*chan + c` subscripting `audio`. -/
def sampleIndex (t i chan c : Int) : Int :=
  wrapInt (wrapInt (wrapInt (offset t + i) * chan) + c)

/-- Hann table of the loop `for(int i=0;i<N;i++) window[i] = 0.5 * (1 - cos(2*M_PI*i/(N-1)));`
over the reals; the program uses `window NFFT`. -/
noncomputable def window (N : Int) : List ℝ :=
  (forRange N).map fun i : Int =>
    0.5 * (1 - Real.cos (2 * Real.pi * (i : ℝ) / ((N - 1 : Int) : ℝ)))

/-- Value of `sum` after `c` passes of
`for(int c=0; c<chan; c++) sum += audio[(offset+i)*chan + c];`. -/
def mixdown {α : Type} [Add α] [Zero α] (audio : List α) (t i chan : Int) : Nat → Option α
  | 0 => some 0
  | c + 1 =>
    (mixdown audio t i chan c).bind fun sum =>
      (readSample audio (sampleIndex t i chan c)).map fun v => sum + v

/-- `in[i] = (sum/chan) * window[i];` for frame `t`. -/
noncomputable def inSample (audio : List ℝ) (chan t i : Int) : Option ℝ :=
  (mixdown audio t i chan chan.toNat).bind fun sum =>
    (readSample (window NFFT) i).map fun w => (sum / (chan : ℝ)) * w

/-- The analysis frame `in` of frame `t` (`for(int i=0; i<NFFT; i++)`). -/
noncomputable def inFrame (audio : List ℝ) (chan t : Int) : Option (List ℝ) :=
  allDefined ((forRange NFFT).map (inSample audio chan t))

/-- `double mag = sqrt(out[k][0]*out[k][0] + out[k][1]*out[k][1]);` -/
noncomputable def mag (z : ℝ × ℝ) : ℝ := Real.sqrt (z.1 * z.1 + z.2 * z.2)

/-- Complex spectrum `out` of frame `t`. -/
noncomputable def spectrum (audio : List ℝ) (chan t : Int) : Option (Int → ℝ × ℝ) :=
  (inFrame audio chan t).map (fftwExecute NFFT)

/-- Column `t` of `spec`: `for(int k=0; k<=NFFT/2; k++) spec.at<float>(k,t) = (float)mag;`. -/
noncomputable def specColumn (audio : List ℝ) (chan t : Int) : Option (List ℝ) :=
  (spectrum audio chan t).map fun out => (forRange (Int.tdiv NFFT 2 + 1)).map fun k => mag (out k)

/-! ### Log scaling and normalisation (`cv::log`, `cv::normalize`, `convertTo`) -/

section Renderer

variable {α : Type} [LinearOrderedField α] [FloorRing α]

/-- `spec += 1e-6;` -/
def addEpsilon (spec : List (List α)) : List (List α) :=
  spec.map fun row => row.map fun v => v + 1 / 1000000

/-- `cv::log(spec, logSpec);` element-wise, for the logarithm `lg`. -/
def logMat (lg : α → α) (spec : List (List α)) : List (List α) :=
  spec.map fun row => row.map lg

/-- Smallest entry found by `cv::minMaxIdx` (`0` for an empty matrix). -/
def minEntry (m : List (List α)) : α :=
  match m.flatten with
  | [] => 0
  | x :: xs => xs.foldl min x

/-- Largest entry found by `cv::minMaxIdx` (`0` for an empty matrix). -/
def maxEntry (m : List (List α)) : α :=
  match m.flatten with
  | [] => 0
  | x :: xs => xs.foldl max x

/-- `DBL_EPSILON = 2^-52`. -/
def DBL_EPSILON : α := 1 / 4503599627370496

/-- The factor `scale` of `cv::normalize(src, dst, a, b, cv::NORM_MINMAX)` as OpenCV
computes it: `(dmax - dmin) * (smax - smin > DBL_EPSILON ? 1./(smax - smin) : 0)`. -/
def normScale (src : List (List α)) (a b : α) : α :=
  (max a b - min a b) *
    (if maxEntry src - minEntry src > DBL_EPSILON then 1 / (maxEntry src - minEntry src) else 0)

/-- The offset `shift = dmin - smin*scale` of the same call. -/
def normShift (src : List (List α)) (a b : α) : α :=
  min a b - minEntry src * normScale src a b

/-- `cv::normalize(src, dst, a, b, cv::NORM_MINMAX)`: `dst = src*scale + shift`. -/
def normalizeMinMax (src : List (List α)) (a b : α) : List (List α) :=
  src.map fun row => row.map fun v => v * normScale src a b + normShift src a b

/-- `cvRound`: round to nearest, ties to even. -/
def cvRound (x : α) : Int :=
  if Int.fract x = 1 / 2 then (if Int.floor x % 2 = 0 then Int.floor x else Int.floor x + 1)
  else round x

/-- `cv::saturate_cast<uchar>` of a rounded value. -/
def saturateU8 (n : Int) : Int := if n < 0 then 0 else if 255 < n then 255 else n

/-- `logSpec.convertTo(logSpec, CV_8U);` -/
def convertTo8U (m : List (List α)) : List (List Int) :=
  m.map fun row => row.map fun v => saturateU8 (cvRound v)

/-- The 8-bit image handed to `cv::applyColorMap`: step 7 of `main`. -/
def logSpec (lg : α → α) (spec : List (List α)) : List (List Int) :=
  convertTo8U (normalizeMinMax (logMat lg (addEpsilon spec)) 0 255)

end Renderer

end MainCpp

/-! ## `spectogram.cpp`: framing -/

namespace SpectogramCpp

/-- `const int NFFT = 1024;` -/
def NFFT : Int := 1024

/-- `const int HOP = NFFT / 4;` -/
def HOP : Int := wrapInt (Int.tdiv NFFT 4)

/-- `const int freqBins = NFFT / 2 + 1;` -/
def freqBins : Int := wrapInt (wrapInt (Int.tdiv NFFT 2) + 1)

/-- `const int numFrames = 1 + (sfinfo.frames - NFFT) / HOP;` computed in 64 bits
and then narrowed to `int`. -/
def numFrames (frames : Int) : Int :=
  wrapInt (wrapLong (1 + wrapLong (Int.tdiv (wrapLong (frames - NFFT)) HOP)))

/-- `int offset = t * HOP;` -/
def offset (t : Int) : Int := wrapInt (t * HOP)

/-- The `int` expression `(offset + i) * chan + c` subscripting `audio`. -/
def sampleIndex (t i chan c : Int) : Int :=
  wrapInt (wrapInt (wrapInt (offset t + i) * chan) + c)

/-- Hann table of the loop
`for (int i = 0; i < N; ++i) window[i] = 0.5 * (1 - cos(2 * M_PI * i / (N - 1)));`
over the reals; the program uses `window NFFT`. -/
noncomputable def window (N : Int) : List ℝ :=
  (forRange N).map fun i : Int =>
    0.5 * (1 - Real.cos (2 * Real.pi * (i : ℝ) / ((N - 1 : Int) : ℝ)))

/-- Value of `sum` after `c` passes of
`for (int c = 0; c < chan; ++c) sum += audio[(offset + i) * chan + c];`. -/
def mixdown {α : Type} [Add α] [Zero α] (audio : List α) (t i chan : Int) : Nat → Option α
  | 0 => some 0
  | c + 1 =>
    (mixdown audio t i chan c).bind fun sum =>
      (readSample audio (sampleIndex t i chan c)).map fun v => sum + v

/-- `in[i] = sum / chan * window[i];` for frame `t`. -/
noncomputable def inSample (audio : List ℝ) (chan t i : Int) : Option ℝ :=
  (mixdown audio t i chan chan.toNat).bind fun sum =>
    (readSample (window NFFT) i).map fun w => sum / (chan : ℝ) * w

/-- The analysis frame `in` of frame `t` (`for (int i = 0; i < NFFT; ++i)`). -/
noncomputable def inFrame (audio : List ℝ) (chan t : Int) : Option (List ℝ) :=
  allDefined ((forRange NFFT).map (inSample audio chan t))

/-- Complex spectrum `out` of frame `t`. -/
noncomputable def spectrum (audio : List ℝ) (chan t : Int) : Option (Int → ℝ × ℝ) :=
  (inFrame audio chan t).map (fftwExecute NFFT)

/-- `std::hypot(x, y)`. -/
noncomputable def hypot (x y : ℝ) : ℝ := Real.sqrt (x ^ 2 + y ^ 2)

/-- Magnitude of one bin: `std::hypot(out[k][0], out[k][1])`. -/
noncomputable def mag (z : ℝ × ℝ) : ℝ := hypot z.1 z.2

/-! ### Band aggregation -/

/-- `int NBANDS = 8;` -/
def NBANDS : Int := 8

/-- `int binsPerBand = freqBins / NBANDS;` -/
def binsPerBand : Int := wrapInt (Int.tdiv freqBins NBANDS)

/-- Bins visited by
`for (int k = ...; k < (b+1) * binsPerBand && k < freqBins; ++k)`
from the current `k`, with at most `fuel` passes. -/
def bandLoop (b : Int) : Nat → Int → List Int
  | 0, _ => []
  | fuel + 1, k =>
    if k < (b + 1) * binsPerBand ∧ k < freqBins then k :: bandLoop b fuel (k + 1) else []

/-- Bins accumulated into band `b`: the loop started at `k = b * binsPerBand`
(`freqBins` passes are enough, every pass has `k < freqBins`). -/
def bandBins (b : Int) : List Int := bandLoop b freqBins.toNat (b * binsPerBand)

/-- Bands whose loop visits bin `k`. -/
def bandsContaining (k : Int) : List Int :=
  (forRange NBANDS).filter fun b => decide (k ∈ bandBins b)

/-- The vector `bands`: `bands[b] = static_cast<float>(acc / binsPerBand)` with
`acc` the sum of the magnitudes of the bins of band `b`. -/
noncomputable def bands (out : Int → ℝ × ℝ) : List (F32 ℝ) :=
  (forRange NBANDS).map fun b =>
    toF32 ((bandBins b).foldl (fun acc k => acc + mag (out k)) 0 / (binsPerBand : ℝ))

/-! ### Ring radii -/

section Rings

variable {α : Type} [LinearOrderedField α] [FloorRing α]

/-- `*std::max_element(bands.begin(), bands.end())`: the first element that none
of the later ones exceeds under `<` (`0` for an empty vector). -/
def maxElement : List (F32 α) → F32 α
  | [] => F32.fin 0
  | x :: xs => xs.foldl (fun largest y => if F32.lt largest y then y else largest) x

/-- `float maxRadius = std::min(canvasSize.width, canvasSize.height) * 0.45f;`
for the `800 x 600` canvas. -/
def maxRadius : F32 α := F32.mul (toF32 ((min 800 600 : Int) : α)) (toF32 (45 / 100))

/-- `float normVal = bands[b] / (*std::max_element(...) + 1e-6f);` for the band
value `x = bands[b]`. -/
def normVal (bands : List (F32 α)) (x : F32 α) : F32 α :=
  F32.div x (F32.add (maxElement bands) (toF32 (1 / 1000000)))

/-- `float radius = normVal * maxRadius; if (radius < 60){radius = radius + 60;}` -/
def radius (bands : List (F32 α)) (x : F32 α) : F32 α :=
  if F32.lt (F32.mul (normVal bands x) maxRadius) (toF32 60) then
    F32.add (F32.mul (normVal bands x) maxRadius) (toF32 60)
  else F32.mul (normVal bands x) maxRadius

/-- Radii of the rings of one frame, band by band (`for (int b = 0; b < NBANDS; ++b)`). -/
def ringRadii (bands : List (F32 α)) : List (F32 α) := bands.map (radius bands)

end Rings

/-- Band energies of frame `t`. -/
noncomputable def frameBands (audio : List ℝ) (chan t : Int) : Option (List (F32 ℝ)) :=
  (spectrum audio chan t).map bands

/-- Normalised band values of frame `t`. -/
noncomputable def frameNormVals (audio : List ℝ) (chan t : Int) : Option (List (F32 ℝ)) :=
  (frameBands audio chan t).map fun bs => bs.map (normVal bs)

/-- Ring radii drawn on the canvas of frame `t`. -/
noncomputable def frameRadii (audio : List ℝ) (chan t : Int) : Option (List (F32 ℝ)) :=
  (frameBands audio chan t).map ringRadii

/-! ### Main loop and exit code -/

/-- What the main loop has done so far: the canvases it has drawn and those it
has handed to `writer.write`, oldest first. -/
structure LoopState (φ : Type) where
  /-- Canvas drawn in each pass. -/
  drawn : List φ
  /-- Canvases passed to `writer.write`. -/
  written : List φ

/-- One pass of the main loop for frame `t`: the canvas is drawn, and written
`if (t % 6 == 0)`. -/
def loopBody {φ : Type} (canvas : Int → φ) (s : LoopState φ) (t : Int) : LoopState φ :=
  { drawn := s.drawn ++ [canvas t]
    written := if Int.tmod t 6 = 0 then s.written ++ [canvas t] else s.written }

/-- The loop `for (int t = 0; t < numFrames; ++t)`. -/
def mainLoop {φ : Type} (canvas : Int → φ) (numFrames : Int) : LoopState φ :=
  (forRange numFrames).foldl (loopBody canvas) { drawn := [], written := [] }

/-- Result of a run of the visualizer. -/
structure Outcome (φ : Type) where
  /-- Value returned by `main`. -/
  exitCode : Int
  /-- Number of passes of the main loop. -/
  passes : Nat
  /-- Canvases handed to the video writer. -/
  written : List φ

/-- Control flow of `main`: the three early `return 1` (missing argument, `sf_open`
failure, unopened writer), otherwise the main loop, the mux step and `return 0`. -/
def main {φ : Type} (argc : Int) (sndOpened writerOpened : Bool) (frames : Int)
    (canvas : Int → φ) : Outcome φ :=
  if argc < 2 then { exitCode := 1, passes := 0, written := [] }
  else if !sndOpened then { exitCode := 1, passes := 0, written := [] }
  else if !writerOpened then { exitCode := 1, passes := 0, written := [] }
  else
    let s := mainLoop canvas (numFrames frames)
    { exitCode := 0, passes := s.drawn.length, written := s.written }

end SpectogramCpp

/-! ## Properties under study -/

/-- Closed form of coefficient `i` of the Hann table of length `N`. -/
noncomputable def hannCoeff (N i : Nat) : ℝ :=
  0.5 * (1 - Real.cos (2 * Real.pi * (i : ℝ) / ((N : ℝ) - 1)))

/-- Framing contract for a buffer of `frames` samples per channel and `chan`
channels: both programs obtain `1 + ⌊(frames - N)/H⌋` frames, the last sample of the
last frame lies inside the signal, and every subscript formed by the mixdown loop
is the interleaved position `(t*H + i)*chan + c` and lies inside the buffer. -/
def FramingInBounds (frames chan : Int) : Prop :=
  MainCpp.numFrames frames = 1 + (frames - 1024) / 256 ∧
  SpectogramCpp.numFrames frames = 1 + (frames - 1024) / 256 ∧
  (MainCpp.numFrames frames - 1) * 256 + 1024 - 1 < frames ∧
  ∀ t i c : Int, 0 ≤ t → t < MainCpp.numFrames frames → 0 ≤ i → i < 1024 →
    0 ≤ c → c < chan →
    (toSizeT (MainCpp.sampleIndex t i chan c) : Int) = (t * 256 + i) * chan + c ∧
    (toSizeT (SpectogramCpp.sampleIndex t i chan c) : Int) = (t * 256 + i) * chan + c ∧
    (t * 256 + i) * chan + c < frames * chan

/-- Band partition contract: every frequency bin `0 .. freqBins - 1` is visited by
the loop of exactly one of the `NBANDS` bands. -/
def BandsPartition : Prop :=
  ∀ k : Int, 0 ≤ k → k < SpectogramCpp.freqBins →
    ∃ b : Int, 0 ≤ b ∧ b < SpectogramCpp.NBANDS ∧ SpectogramCpp.bandsContaining k = [b]

/-- Short-input contract: with fewer than `N` samples per channel neither
analysis loop makes a pass, and the visualizer run (argument given, input and
writer opened) ends with the fatal exit code `1`. -/
def ShortInputRejected (frames : Int) : Prop :=
  forRange (MainCpp.numFrames frames) = [] ∧
  forRange (SpectogramCpp.numFrames frames) = [] ∧
  ∀ (audio : List ℝ) (chan : Int),
    (SpectogramCpp.main 2 true true frames (SpectogramCpp.frameRadii audio chan)).exitCode = 1

/-- Silent-buffer contract of the visualizer: in every frame of the run the 8
normalised band values are `0` and the 8 ring radii are `60`. -/
def SilentRings (audio : List ℝ) (frames chan : Int) : Prop :=
  ∀ t : Int, 0 ≤ t → t < SpectogramCpp.numFrames frames →
    SpectogramCpp.frameNormVals audio chan t = some (List.replicate 8 (F32.fin 0)) ∧
    SpectogramCpp.frameRadii audio chan t = some (List.replicate 8 (F32.fin 60))

/-- A finite, non-negative binary32 value. -/
def F32.IsEnergy {α : Type} [LinearOrderedField α] [FloorRing α] (v : F32 α) : Prop :=
  ∃ x : α, v = F32.fin x ∧ 0 ≤ x ∧ toF32 x = F32.fin x

/-- A non-negative binary32 value, `+inf` included. -/
def F32.IsNonneg {α : Type} [LinearOrderedField α] : F32 α → Prop
  | .fin x => 0 ≤ x
  | .inf s => s = false
  | .nan => False

/-- A finite binary32 value in the interval `[lo, hi]`. -/
def F32.Within {α : Type} [LinearOrderedField α] (lo hi : α) (v : F32 α) : Prop :=
  ∃ y : α, v = F32.fin y ∧ lo ≤ y ∧ y ≤ hi

/-- The frame `64, 16, 8, 0, 0, 0, 0, 0`. -/
def stepFrame : List (F32 ℚ) :=
  [F32.fin 64, F32.fin 16, F32.fin 8, F32.fin 0, F32.fin 0, F32.fin 0, F32.fin 0, F32.fin 0]

/-- The frame `1, 0.3f, 0.2f, 0, 0, 0, 0, 0`, with `0.3f = 5033165 / 2^24` and
`0.2f = 13421773 / 2^26`. -/
def tenthsFrame : List (F32 ℚ) :=
  [F32.fin 1, F32.fin (5033165 / 16777216), F32.fin (13421773 / 67108864), F32.fin 0,
    F32.fin 0, F32.fin 0, F32.fin 0, F32.fin 0]

/-- The frame `72, 16, 0, 0, 0, 0, 0, 0`. -/
def nearFloorFrame : List (F32 ℚ) :=
  [F32.fin 72, F32.fin 16, F32.fin 0, F32.fin 0, F32.fin 0, F32.fin 0, F32.fin 0, F32.fin 0]

/-- The frame `1000, 0, 0, 0, 0, 0, 0, 0`. -/
def loudFrame : List (F32 ℚ) :=
  [F32.fin 1000, F32.fin 0, F32.fin 0, F32.fin 0, F32.fin 0, F32.fin 0, F32.fin 0, F32.fin 0]

/-- The frame `+inf, 0, 0, 0, 0, 0, 0, 0`. -/
def infFrame : List (F32 ℚ) :=
  [F32.inf false, F32.fin 0, F32.fin 0, F32.fin 0, F32.fin 0, F32.fin 0, F32.fin 0, F32.fin 0]

/-- An 8-bit value strictly inside the range `0 .. 255`. -/
def MidRange (p : Int) : Prop := 0 < p ∧ p < 255

/-! ## Machine integers: lemmas -/

theorem wrapInt_of_range {x : Int} (h0 : -2147483648 ≤ x) (h1 : x < 2147483648) :
    wrapInt x = x := by
  unfold wrapInt; omega

theorem wrapLong_of_range {x : Int} (h0 : -9223372036854775808 ≤ x)
    (h1 : x < 9223372036854775808) : wrapLong x = x := by
  unfold wrapLong; omega

theorem toSizeT_of_nonneg {x : Int} (h0 : 0 ≤ x) (h1 : x < 18446744073709551616) :
    (toSizeT x : Int) = x := by
  unfold toSizeT
  rw [Int.toNat_of_nonneg (by omega)]
  omega

theorem main_HOP_eq : MainCpp.HOP = 256 := by decide

theorem spectogram_HOP_eq : SpectogramCpp.HOP = 256 := by decide

theorem spectogram_freqBins_eq : SpectogramCpp.freqBins = 513 := by decide

/-! ## Binary32: lemmas -/

theorem two_zpow_split {α : Type} [LinearOrderedField α] (e : Int) (k : Nat) :
    (2 : α) ^ (e - 23 + k) = (2 : α) ^ k * (2 : α) ^ (e - 23) := by
  rw [zpow_add₀ (by norm_num : (2 : α) ≠ 0), zpow_natCast, mul_comm]

theorem FLT_MAX_pos {α : Type} [LinearOrderedField α] : (0 : α) < FLT_MAX := by
  unfold FLT_MAX; norm_num

section FloatLemmas

variable {α : Type} [LinearOrderedField α] [FloorRing α]

theorem roundEven_near (x : α) :
    (roundEven x : α) - 1 / 2 ≤ x ∧ x ≤ (roundEven x : α) + 1 / 2 := by
  have h1 := Int.floor_le x
  have h2 := Int.lt_floor_add_one x
  unfold roundEven
  split_ifs with ha hb hc
  · constructor <;> linarith
  · push_cast; constructor <;> linarith
  · constructor <;> linarith
  · push_cast; constructor <;> linarith

theorem roundEven_eq_of_near (x : α) (n : Int) (h1 : (n : α) - 1 / 2 < x)
    (h2 : x < (n : α) + 1 / 2) : roundEven x = n := by
  obtain ⟨h3, h4⟩ := roundEven_near x
  have h5 : ((roundEven x : Int) : α) < (n : α) + 1 := by linarith
  have h6 : (n : α) < ((roundEven x : Int) : α) + 1 := by linarith
  have h7 : roundEven x < n + 1 := by exact_mod_cast h5
  have h8 : n < roundEven x + 1 := by exact_mod_cast h6
  omega

theorem roundEven_tie (x : α) (n : Int) (h : x = (n : α) + 1 / 2) (hn : n % 2 = 0) :
    roundEven x = n := by
  have hfl : Int.floor x = n := by
    rw [Int.floor_eq_iff, h]
    constructor <;> linarith
  unfold roundEven
  rw [hfl, h]
  have h1 : ¬ ((n : α) + 1 / 2 - (n : α) < 1 / 2) := by
    rw [add_sub_cancel_left]; exact lt_irrefl _
  have h2 : ¬ ((1 : α) / 2 < (n : α) + 1 / 2 - (n : α)) := by
    rw [add_sub_cancel_left]; exact lt_irrefl _
  rw [if_neg h1, if_neg h2, if_pos hn]

theorem roundEven_intCast (n : Int) : roundEven (n : α) = n :=
  roundEven_eq_of_near _ n (by linarith) (by linarith)

theorem roundEven_mono {x y : α} (h : x ≤ y) : roundEven x ≤ roundEven y := by
  by_contra hlt
  push_neg at hlt
  have h1 := (roundEven_near x).1
  have h2 := (roundEven_near y).2
  have h3 : ((roundEven y : Int) : α) + 1 ≤ (roundEven x : α) := by exact_mod_cast hlt
  have hxy : x = y := le_antisymm h (by linarith)
  rw [hxy] at hlt
  exact lt_irrefl _ hlt

theorem le_roundEven {x : α} {k : Int} (h : (k : α) ≤ x) : k ≤ roundEven x := by
  have := roundEven_mono h
  rwa [roundEven_intCast] at this

theorem roundEven_le {x : α} {k : Int} (h : x ≤ (k : α)) : roundEven x ≤ k := by
  have := roundEven_mono h
  rwa [roundEven_intCast] at this

theorem ulp_pos (x : α) : 0 < ulp x := zpow_pos (by norm_num) _

/-- The binade of a number with `2^e ≤ |x| < 2^(e+1)`, `e ≥ -126`. -/
theorem binade_eq (x : α) (e : Int) (he : -126 ≤ e) (h1 : (2 : α) ^ e ≤ |x|)
    (h2 : |x| < (2 : α) ^ (e + 1)) : binade x = e := by
  have hpos : 0 < |x| := lt_of_lt_of_le (zpow_pos (by norm_num) _) h1
  have hb : (1 : Nat) < 2 := by norm_num
  have c : ((2 : Nat) : α) = 2 := by norm_num
  have h3 : e ≤ Int.log 2 |x| := by
    rw [← Int.zpow_le_iff_le_log hb hpos, c]; exact h1
  have h4 : Int.log 2 |x| < e + 1 := by
    rw [← Int.lt_zpow_iff_log_lt hb hpos, c]; exact h2
  unfold binade
  omega

/-- Rounding certificate: in the binade `e`, a number within half a unit of the
integer `n` on the scale `2^(e-23)` rounds to `n * 2^(e-23)`. -/
theorem roundGrid_eq (x : α) (e n : Int) (he : -126 ≤ e) (h1 : (2 : α) ^ e ≤ |x|)
    (h2 : |x| < (2 : α) ^ (e + 1)) (h3 : (n : α) - 1 / 2 < x / (2 : α) ^ (e - 23))
    (h4 : x / (2 : α) ^ (e - 23) < (n : α) + 1 / 2) :
    roundGrid x = (n : α) * (2 : α) ^ (e - 23) := by
  unfold roundGrid ulp
  rw [binade_eq x e he h1 h2, roundEven_eq_of_near _ n h3 h4]

theorem roundGrid_zero : roundGrid (0 : α) = 0 := by
  unfold roundGrid
  rw [zero_div]
  have : roundEven (0 : α) = 0 := by
    have := roundEven_intCast (α := α) 0
    simpa using this
  rw [this]
  simp

theorem roundGrid_nonneg {x : α} (h : 0 ≤ x) : 0 ≤ roundGrid x := by
  unfold roundGrid
  have h1 : ((0 : Int) : α) ≤ x / ulp x := by
    rw [Int.cast_zero]
    exact div_nonneg h (ulp_pos x).le
  have h2 : (0 : Int) ≤ roundEven (x / ulp x) := le_roundEven h1
  have h3 : (0 : α) ≤ (roundEven (x / ulp x) : α) := by exact_mod_cast h2
  exact mul_nonneg h3 (ulp_pos x).le

/-- A positive number is below the top of its binade, which is on its grid. -/
theorem roundGrid_le_top {x : α} (hx : 0 < x) :
    x < (2 : α) ^ (binade x + 1) ∧ roundGrid x ≤ (2 : α) ^ (binade x + 1) := by
  have hb : (1 : Nat) < 2 := by norm_num
  have c : ((2 : Nat) : α) = 2 := by norm_num
  have habs : |x| = x := abs_of_pos hx
  have h1 : x < (2 : α) ^ (Int.log 2 x + 1) := by
    have := Int.lt_zpow_succ_log_self hb x
    rwa [c] at this
  have h2 : Int.log 2 x + 1 ≤ binade x + 1 := by
    unfold binade; rw [habs]; omega
  have h3 : x < (2 : α) ^ (binade x + 1) :=
    lt_of_lt_of_le h1 (zpow_le_zpow_right₀ (by norm_num) h2)
  refine ⟨h3, ?_⟩
  have hsplit : (2 : α) ^ (binade x + 1) = ((16777216 : Int) : α) * ulp x := by
    unfold ulp
    have : binade x + 1 = binade x - 23 + ((24 : Nat) : Int) := by push_cast; ring
    rw [this, two_zpow_split]
    norm_num
  have h4 : x / ulp x ≤ ((16777216 : Int) : α) := by
    rw [div_le_iff₀ (ulp_pos x), ← hsplit]
    exact h3.le
  have h5 : roundEven (x / ulp x) ≤ 16777216 := roundEven_le h4
  have h6 : (roundEven (x / ulp x) : α) ≤ ((16777216 : Int) : α) := by exact_mod_cast h5
  unfold roundGrid
  rw [hsplit]
  exact mul_le_mul_of_nonneg_right h6 (ulp_pos x).le

/-- A normal positive number is at least the bottom of its binade, which is on
its grid. -/
theorem bottom_le_roundGrid {x : α} (hx : 0 < x) (hn : -126 ≤ Int.log 2 x) :
    (2 : α) ^ (binade x) ≤ roundGrid x := by
  have hb : (1 : Nat) < 2 := by norm_num
  have c : ((2 : Nat) : α) = 2 := by norm_num
  have habs : |x| = x := abs_of_pos hx
  have hbin : binade x = Int.log 2 x := by
    unfold binade; rw [habs]; omega
  have h1 : (2 : α) ^ (binade x) ≤ x := by
    rw [hbin]
    have := Int.zpow_log_le_self hb hx
    rwa [c] at this
  have hsplit : (2 : α) ^ (binade x) = ((8388608 : Int) : α) * ulp x := by
    unfold ulp
    have : binade x = binade x - 23 + ((23 : Nat) : Int) := by push_cast; ring
    conv_lhs => rw [this]
    rw [two_zpow_split]
    norm_num
  have h4 : ((8388608 : Int) : α) ≤ x / ulp x := by
    rw [le_div_iff₀ (ulp_pos x), ← hsplit]
    exact h1
  have h5 : 8388608 ≤ roundEven (x / ulp x) := le_roundEven h4
  have h6 : ((8388608 : Int) : α) ≤ (roundEven (x / ulp x) : α) := by exact_mod_cast h5
  unfold roundGrid
  rw [hsplit]
  exact mul_le_mul_of_nonneg_right h6 (ulp_pos x).le

/-- Rounding to the grid is monotone on the non-negative numbers. -/
theorem roundGrid_mono {x y : α} (hx : 0 ≤ x) (hxy : x ≤ y) : roundGrid x ≤ roundGrid y := by
  rcases hx.eq_or_lt with h0 | hpos
  · rw [← h0, roundGrid_zero]
    exact roundGrid_nonneg (le_trans hx hxy)
  have hypos : 0 < y := lt_of_lt_of_le hpos hxy
  have hlog : Int.log 2 x ≤ Int.log 2 y := Int.log_mono_right hpos hxy
  have hbx : binade x = max (Int.log 2 x) (-126) := by unfold binade; rw [abs_of_pos hpos]
  have hby : binade y = max (Int.log 2 y) (-126) := by unfold binade; rw [abs_of_pos hypos]
  have hle : binade x ≤ binade y := by rw [hbx, hby]; omega
  rcases hle.eq_or_lt with heq | hlt
  · have hu : ulp x = ulp y := by unfold ulp; rw [heq]
    unfold roundGrid
    rw [hu]
    have h1 : x / ulp y ≤ y / ulp y := div_le_div_of_nonneg_right hxy (ulp_pos y).le
    have h2 : (roundEven (x / ulp y) : α) ≤ (roundEven (y / ulp y) : α) := by
      exact_mod_cast roundEven_mono h1
    exact mul_le_mul_of_nonneg_right h2 (ulp_pos y).le
  · have h1 := (roundGrid_le_top hpos).2
    have hn : -126 ≤ Int.log 2 y := by rw [hbx, hby] at hlt; omega
    have h2 := bottom_le_roundGrid hypos hn
    have h3 : (2 : α) ^ (binade x + 1) ≤ (2 : α) ^ (binade y) :=
      zpow_le_zpow_right₀ (by norm_num) (by omega)
    exact le_trans h1 (le_trans h3 h2)

theorem toF32_of_roundGrid {x y : α} (h : roundGrid x = y) (h1 : -FLT_MAX ≤ y)
    (h2 : y ≤ FLT_MAX) : toF32 x = F32.fin y := by
  unfold toF32
  rw [h, if_neg (not_lt.2 h2), if_neg (not_lt.2 h1)]

/-- Evaluation of a rounding from a certificate `(e, n)`. -/
theorem toF32_eq (x : α) (e n : Int) (y : α) (he : -126 ≤ e) (h1 : (2 : α) ^ e ≤ |x|)
    (h2 : |x| < (2 : α) ^ (e + 1)) (h3 : (n : α) - 1 / 2 < x / (2 : α) ^ (e - 23))
    (h4 : x / (2 : α) ^ (e - 23) < (n : α) + 1 / 2) (hy : (n : α) * (2 : α) ^ (e - 23) = y)
    (hlo : -FLT_MAX ≤ y) (hhi : y ≤ FLT_MAX) : toF32 x = F32.fin y :=
  toF32_of_roundGrid (by rw [roundGrid_eq x e n he h1 h2 h3 h4, hy]) hlo hhi

/-- The same certificate for a positive number. -/
theorem toF32_eq_pos (x : α) (e n : Int) (y : α) (he : -126 ≤ e) (h1 : (2 : α) ^ e ≤ x)
    (h2 : x < (2 : α) ^ (e + 1)) (h3 : (n : α) - 1 / 2 < x / (2 : α) ^ (e - 23))
    (h4 : x / (2 : α) ^ (e - 23) < (n : α) + 1 / 2) (hy : (n : α) * (2 : α) ^ (e - 23) = y)
    (hhi : y ≤ FLT_MAX) : toF32 x = F32.fin y := by
  have hx : 0 < x := lt_of_lt_of_le (zpow_pos (by norm_num) _) h1
  have habs : |x| = x := abs_of_pos hx
  have hy0 : 0 ≤ y := by
    rw [← hy, ← roundGrid_eq x e n he (by rw [habs]; exact h1) (by rw [habs]; exact h2) h3 h4]
    exact roundGrid_nonneg hx.le
  have hF : (0 : α) ≤ FLT_MAX := by unfold FLT_MAX; norm_num
  exact toF32_eq x e n y he (by rw [habs]; exact h1) (by rw [habs]; exact h2) h3 h4 hy
    (by linarith) hhi

/-- The certificate for a positive number half-way between two grid points, the
lower one even. -/
theorem toF32_eq_tie (x : α) (e n : Int) (y : α) (he : -126 ≤ e) (h1 : (2 : α) ^ e ≤ x)
    (h2 : x < (2 : α) ^ (e + 1)) (h3 : x / (2 : α) ^ (e - 23) = (n : α) + 1 / 2)
    (hn : n % 2 = 0) (hy : (n : α) * (2 : α) ^ (e - 23) = y) (hy0 : 0 ≤ y)
    (hhi : y ≤ FLT_MAX) : toF32 x = F32.fin y := by
  have hx : 0 < x := lt_of_lt_of_le (zpow_pos (by norm_num) _) h1
  have habs : |x| = x := abs_of_pos hx
  have hF := FLT_MAX_pos (α := α)
  apply toF32_of_roundGrid _ (by linarith) hhi
  unfold roundGrid ulp
  rw [binade_eq x e he (by rw [habs]; exact h1) (by rw [habs]; exact h2),
    roundEven_tie _ n h3 hn, hy]

theorem toF32_zero : toF32 (0 : α) = F32.fin 0 :=
  toF32_of_roundGrid roundGrid_zero (by unfold FLT_MAX; norm_num) (by unfold FLT_MAX; norm_num)

theorem toF32_one : toF32 (1 : α) = F32.fin 1 := by
  apply toF32_eq_pos 1 0 8388608 <;> norm_num [FLT_MAX]

theorem toF32_sixty : toF32 (60 : α) = F32.fin 60 := by
  apply toF32_eq_pos 60 5 15728640 <;> norm_num [FLT_MAX]

theorem toF32_120 : toF32 (120 : α) = F32.fin 120 := by
  apply toF32_eq_pos 120 6 15728640 <;> norm_num [FLT_MAX]

theorem toF32_270 : toF32 (270 : α) = F32.fin 270 := by
  apply toF32_eq_pos 270 8 8847360 <;> norm_num [FLT_MAX]

theorem toF32_330 : toF32 (330 : α) = F32.fin 330 := by
  apply toF32_eq_pos 330 8 10813440 <;> norm_num [FLT_MAX]

theorem toF32_600 : toF32 (600 : α) = F32.fin 600 := by
  apply toF32_eq_pos 600 9 9830400 <;> norm_num [FLT_MAX]

theorem toF32_045 : toF32 (45 / 100 : α) = F32.fin (7549747 / 16777216) := by
  apply toF32_eq_pos (45 / 100) (-2) 15099494 <;> norm_num [FLT_MAX]

theorem toF32_eps : toF32 (1 / 1000000 : α) = F32.fin (8796093 / 8796093022208) := by
  apply toF32_eq_pos (1 / 1000000) (-20) 8796093 <;> norm_num [FLT_MAX]

end FloatLemmas

/-! ## Framing: lemmas -/

theorem main_numFrames_of_ge {frames : Int} (h0 : 1024 ≤ frames)
    (h1 : frames ≤ 4294967296) :
    MainCpp.numFrames frames = 1 + (frames - 1024) / 256 := by
  unfold MainCpp.numFrames
  rw [main_HOP_eq]
  simp only [MainCpp.NFFT]
  rw [wrapLong_of_range (x := frames - 1024) (by omega) (by omega)]
  rw [Int.tdiv_eq_ediv (by omega) (by omega)]
  rw [wrapLong_of_range (x := (frames - 1024) / 256) (by omega) (by omega)]
  rw [wrapLong_of_range (x := 1 + (frames - 1024) / 256) (by omega) (by omega)]
  exact wrapInt_of_range (by omega) (by omega)

theorem spectogram_numFrames_of_ge {frames : Int} (h0 : 1024 ≤ frames)
    (h1 : frames ≤ 4294967296) :
    SpectogramCpp.numFrames frames = 1 + (frames - 1024) / 256 := by
  unfold SpectogramCpp.numFrames
  rw [spectogram_HOP_eq]
  simp only [SpectogramCpp.NFFT]
  rw [wrapLong_of_range (x := frames - 1024) (by omega) (by omega)]
  rw [Int.tdiv_eq_ediv (by omega) (by omega)]
  rw [wrapLong_of_range (x := (frames - 1024) / 256) (by omega) (by omega)]
  rw [wrapLong_of_range (x := 1 + (frames - 1024) / 256) (by omega) (by omega)]
  exact wrapInt_of_range (by omega) (by omega)

/-- Interleaved position of sample `i`, channel `c` of frame `t` when the frame ends
within the first `m` samples, as an exact integer. -/
theorem interleaved_lt {m chan t i c : Int} (hC : 1 ≤ chan) (ht : 0 ≤ t)
    (hi : 0 ≤ i) (hc : c < chan) (hlast : t * 256 + i + 1 ≤ m) :
    0 ≤ (t * 256 + i) * chan ∧ (t * 256 + i) * chan ≤ (m - 1) * chan ∧
    (t * 256 + i) * chan + c < m * chan := by
  have h1 : 0 ≤ (t * 256 + i) * chan := mul_nonneg (by omega) (by omega)
  have h2 : (t * 256 + i) * chan ≤ (m - 1) * chan :=
    mul_le_mul_of_nonneg_right (by omega) (by omega)
  have h3 : (m - 1) * chan = m * chan - chan := by ring
  refine ⟨h1, h2, ?_⟩
  omega

theorem main_sampleIndex_exact {m chan t i c : Int} (hC : 1 ≤ chan)
    (hsz : m * chan ≤ 2147483648) (ht : 0 ≤ t) (hi : 0 ≤ i) (hc0 : 0 ≤ c)
    (hc : c < chan) (hlast : t * 256 + i + 1 ≤ m) :
    MainCpp.sampleIndex t i chan c = (t * 256 + i) * chan + c := by
  obtain ⟨h1, h2, h3⟩ := interleaved_lt hC ht hi hc hlast
  have hfr : m ≤ m * chan := le_mul_of_one_le_right (by omega) hC
  unfold MainCpp.sampleIndex MainCpp.offset
  rw [main_HOP_eq]
  rw [wrapInt_of_range (x := t * 256) (by omega) (by omega)]
  rw [wrapInt_of_range (x := t * 256 + i) (by omega) (by omega)]
  rw [wrapInt_of_range (x := (t * 256 + i) * chan) (by omega) (by omega)]
  exact wrapInt_of_range (by omega) (by omega)

theorem spectogram_sampleIndex_exact {m chan t i c : Int} (hC : 1 ≤ chan)
    (hsz : m * chan ≤ 2147483648) (ht : 0 ≤ t) (hi : 0 ≤ i) (hc0 : 0 ≤ c)
    (hc : c < chan) (hlast : t * 256 + i + 1 ≤ m) :
    SpectogramCpp.sampleIndex t i chan c = (t * 256 + i) * chan + c := by
  obtain ⟨h1, h2, h3⟩ := interleaved_lt hC ht hi hc hlast
  have hfr : m ≤ m * chan := le_mul_of_one_le_right (by omega) hC
  unfold SpectogramCpp.sampleIndex SpectogramCpp.offset
  rw [spectogram_HOP_eq]
  rw [wrapInt_of_range (x := t * 256) (by omega) (by omega)]
  rw [wrapInt_of_range (x := t * 256 + i) (by omega) (by omega)]
  rw [wrapInt_of_range (x := (t * 256 + i) * chan) (by omega) (by omega)]
  exact wrapInt_of_range (by omega) (by omega)

/-- Every sample of every frame lies inside the framed part of the signal, the
first `256 * ⌊(frames - 1024)/256⌋ + 1024` samples. -/
theorem frame_sample_lt {frames t i : Int}
    (ht : t < 1 + (frames - 1024) / 256) (hi : i < 1024) :
    t * 256 + i + 1 ≤ 256 * ((frames - 1024) / 256) + 1024 := by
  omega

/-- The framed part of a signal fits the `int` range with the signal's frames. -/
theorem framed_part_bounds {frames chan : Int} (hN : 1024 ≤ frames) (hC : 1 ≤ chan)
    (hsz : (256 * ((frames - 1024) / 256) + 1024) * chan ≤ 2147483648) :
    256 * ((frames - 1024) / 256) + 1024 ≤ frames ∧ frames ≤ 4294967296 ∧
    (256 * ((frames - 1024) / 256) + 1024) * chan ≤ frames * chan := by
  have hm : 256 * ((frames - 1024) / 256) + 1024 ≤ frames := by omega
  have h1 : 256 * ((frames - 1024) / 256) + 1024 ≤
      (256 * ((frames - 1024) / 256) + 1024) * chan :=
    le_mul_of_one_le_right (by omega) hC
  exact ⟨hm, by omega, mul_le_mul_of_nonneg_right hm (by omega)⟩

/-- Within the `int` range the framing is exact: for `frames ≥ N = 1024`, `chan ≥ 1`
and a framed part of at most `2^31` interleaved samples, both front ends compute
`1 + ⌊(frames - N)/H⌋` frames, the last sample offset of the last frame is `< frames`,
and every subscript `(t*H + i)*chan + c` of the mixdown loop is `< frames*chan`. -/
theorem framing_in_bounds_of_fit (frames chan : Int) (hN : 1024 ≤ frames) (hC : 1 ≤ chan)
    (hsz : (256 * ((frames - 1024) / 256) + 1024) * chan ≤ 2147483648) :
    FramingInBounds frames chan := by
  obtain ⟨hmf, hfr, hmc⟩ := framed_part_bounds hN hC hsz
  have hm := main_numFrames_of_ge hN hfr
  have hs := spectogram_numFrames_of_ge hN hfr
  refine ⟨hm, hs, ?_, ?_⟩
  · rw [hm]; omega
  · intro t i c ht0 ht hi0 hi hc0 hc
    rw [hm] at ht
    have hlast := frame_sample_lt ht hi
    obtain ⟨h1, h2, h3⟩ := interleaved_lt hC ht0 hi0 hc hlast
    rw [main_sampleIndex_exact hC hsz ht0 hi0 hc0 hc hlast,
      spectogram_sampleIndex_exact hC hsz ht0 hi0 hc0 hc hlast]
    exact ⟨toSizeT_of_nonneg (by omega) (by omega), toSizeT_of_nonneg (by omega) (by omega),
      by omega⟩

/-- A 2-second mono buffer at 44100 Hz: `88200` samples, `341` frames, `513` rows
in the spectrogram matrix, every subscript in bounds. -/
theorem framing_in_bounds_two_seconds :
    FramingInBounds 88200 1 ∧ MainCpp.numFrames 88200 = 341 ∧
      Int.tdiv MainCpp.NFFT 2 + 1 = 513 :=
  ⟨framing_in_bounds_of_fit 88200 1 (by decide) (by decide) (by decide), by decide, by decide⟩

/-! ## C1 -/

/-- C1, the code at a long stereo buffer of `2^30 + 1024` samples per channel: both
programs compute `4194305` frames, and for the first sample of the last frame
(`t = 4194304`, `i = 0`, `c = 0`) the `int` subscript `(offset + i) * chan + c`
wraps to `-2^31`; as a `size_t` it is `2^64 - 2^31`, not below the buffer size
`frames * chan`, so the read is outside the buffer and the framing contract fails. -/
theorem C1_subscript_overflow :
    MainCpp.numFrames 1073742848 = 4194305 ∧ SpectogramCpp.numFrames 1073742848 = 4194305 ∧
    MainCpp.sampleIndex 4194304 0 2 0 = -2147483648 ∧
    SpectogramCpp.sampleIndex 4194304 0 2 0 = -2147483648 ∧
    toSizeT (MainCpp.sampleIndex 4194304 0 2 0) = 18446744071562067968 ∧
    ¬ ((toSizeT (SpectogramCpp.sampleIndex 4194304 0 2 0) : Int) < 1073742848 * 2) ∧
    ¬ FramingInBounds 1073742848 2 := by
  refine ⟨by decide, by decide, by decide, by decide, by decide, by decide, ?_⟩
  rintro ⟨-, -, -, h4⟩
  have hn : MainCpp.numFrames 1073742848 = 4194305 := by decide
  have h := (h4 4194304 0 0 (by decide) (by rw [hn]; decide) (by decide) (by decide)
    (by decide) (by decide)).1
  revert h
  decide

/-! ## C2 -/

theorem main_numFrames_of_short {frames : Int} (h0 : 0 ≤ frames) (h1 : frames ≤ 768) :
    MainCpp.numFrames frames = 1 - (1024 - frames) / 256 := by
  unfold MainCpp.numFrames
  rw [main_HOP_eq]
  simp only [MainCpp.NFFT]
  rw [wrapLong_of_range (x := frames - 1024) (by omega) (by omega)]
  have hneg : Int.tdiv (frames - 1024) 256 = -((1024 - frames) / 256) := by
    have h : frames - 1024 = -(1024 - frames) := by ring
    rw [h, Int.neg_tdiv, Int.tdiv_eq_ediv (by omega) (by omega)]
  rw [hneg]
  rw [wrapLong_of_range (x := -((1024 - frames) / 256)) (by omega) (by omega)]
  rw [wrapLong_of_range (x := 1 + -((1024 - frames) / 256)) (by omega) (by omega)]
  rw [wrapInt_of_range (by omega) (by omega)]
  ring

theorem spectogram_numFrames_of_short {frames : Int} (h0 : 0 ≤ frames)
    (h1 : frames ≤ 768) :
    SpectogramCpp.numFrames frames = 1 - (1024 - frames) / 256 := by
  unfold SpectogramCpp.numFrames
  rw [spectogram_HOP_eq]
  simp only [SpectogramCpp.NFFT]
  rw [wrapLong_of_range (x := frames - 1024) (by omega) (by omega)]
  have hneg : Int.tdiv (frames - 1024) 256 = -((1024 - frames) / 256) := by
    have h : frames - 1024 = -(1024 - frames) := by ring
    rw [h, Int.neg_tdiv, Int.tdiv_eq_ediv (by omega) (by omega)]
  rw [hneg]
  rw [wrapLong_of_range (x := -((1024 - frames) / 256)) (by omega) (by omega)]
  rw [wrapLong_of_range (x := 1 + -((1024 - frames) / 256)) (by omega) (by omega)]
  rw [wrapInt_of_range (by omega) (by omega)]
  ring

theorem forRange_of_nonpos {n : Int} (h : n ≤ 0) : forRange n = [] := by
  unfold forRange
  rw [Int.toNat_of_nonpos h]
  rfl

/-- Between `N - H + 1` and `N - 1` samples the truncating division gives one frame:
the frame count is `1`, not `0`. -/
theorem spectogram_numFrames_truncates (frames : Int) (h0 : 769 ≤ frames)
    (h1 : frames ≤ 1023) : SpectogramCpp.numFrames frames = 1 := by
  unfold SpectogramCpp.numFrames
  rw [spectogram_HOP_eq]
  simp only [SpectogramCpp.NFFT]
  rw [wrapLong_of_range (x := frames - 1024) (by omega) (by omega)]
  have hneg : Int.tdiv (frames - 1024) 256 = -((1024 - frames) / 256) := by
    have h : frames - 1024 = -(1024 - frames) := by ring
    rw [h, Int.neg_tdiv, Int.tdiv_eq_ediv (by omega) (by omega)]
  rw [hneg]
  have hz : (1024 - frames) / 256 = 0 := by omega
  rw [hz]
  decide

/-- C2 (amended): for every sample count `0 ≤ frames ≤ N - H = 768` both front ends
compute a frame count `≤ 0` and their analysis loops make no pass; no configuration
error is raised: the visualizer run writes no canvas and returns `0`. -/
theorem C2_short_input_no_pass (frames : Int) (h0 : 0 ≤ frames) (h1 : frames ≤ 768) :
    MainCpp.numFrames frames ≤ 0 ∧ SpectogramCpp.numFrames frames ≤ 0 ∧
    forRange (MainCpp.numFrames frames) = [] ∧
    forRange (SpectogramCpp.numFrames frames) = [] ∧
    ∀ (audio : List ℝ) (chan : Int),
      SpectogramCpp.main 2 true true frames (SpectogramCpp.frameRadii audio chan) =
        { exitCode := 0, passes := 0, written := [] } := by
  have hm : MainCpp.numFrames frames ≤ 0 := by
    rw [main_numFrames_of_short h0 h1]; omega
  have hs : SpectogramCpp.numFrames frames ≤ 0 := by
    rw [spectogram_numFrames_of_short h0 h1]; omega
  refine ⟨hm, hs, forRange_of_nonpos hm, forRange_of_nonpos hs, ?_⟩
  intro audio chan
  simp [SpectogramCpp.main, SpectogramCpp.mainLoop, forRange_of_nonpos hs]

/-- C2 witness: a 512-sample input. -/
theorem C2_short_input_no_pass_witness :
    (0 : Int) ≤ 512 ∧ (512 : Int) ≤ 768 ∧ SpectogramCpp.numFrames 512 = -1 ∧
      (SpectogramCpp.main 2 true true 512 (SpectogramCpp.frameRadii [] 1)).exitCode = 0 :=
  ⟨by decide, by decide, by decide,
    by rw [(C2_short_input_no_pass 512 (by decide) (by decide)).2.2.2.2 [] 1]⟩

/-- C2 as stated fails: a 512-sample input (`512 < N`) is not rejected, the
visualizer run returns `0`. -/
theorem C2_counterexample : (512 : Int) < 1024 ∧ ¬ ShortInputRejected 512 := by
  refine ⟨by decide, ?_⟩
  rintro ⟨-, -, h⟩
  have h1 := h [] 1
  have hn : SpectogramCpp.numFrames 512 = -1 := by decide
  simp [SpectogramCpp.main, SpectogramCpp.mainLoop, hn, forRange] at h1

/-! ## C3: band aggregation -/

theorem spectogram_binsPerBand_eq : SpectogramCpp.binsPerBand = 64 := by decide

theorem spectogram_mem_bandLoop (b : Int) (fuel : Nat) :
    ∀ k j : Int, j ∈ SpectogramCpp.bandLoop b fuel k ↔
      k ≤ j ∧ j < k + fuel ∧ j < (b + 1) * 64 ∧ j < 513 := by
  induction fuel with
  | zero =>
    intro k j
    simp only [SpectogramCpp.bandLoop, List.not_mem_nil, false_iff]
    push_cast
    omega
  | succ n ih =>
    intro k j
    unfold SpectogramCpp.bandLoop
    rw [spectogram_binsPerBand_eq, spectogram_freqBins_eq]
    by_cases hk : k < (b + 1) * 64 ∧ k < 513
    · rw [if_pos hk, List.mem_cons, ih]
      push_cast
      omega
    · rw [if_neg hk]
      simp only [List.not_mem_nil, false_iff]
      push_cast
      omega

/-- Band `b` holds exactly the bins `64 b .. 64 b + 63`: the second loop bound
`k < freqBins` never ends a band, since `8 * 64 = 512 ≤ 513`. -/
theorem spectogram_mem_bandBins (b k : Int) (hb0 : 0 ≤ b) (hb : b < 8) :
    k ∈ SpectogramCpp.bandBins b ↔ b * 64 ≤ k ∧ k < (b + 1) * 64 := by
  unfold SpectogramCpp.bandBins
  rw [spectogram_mem_bandLoop, spectogram_binsPerBand_eq, spectogram_freqBins_eq]
  have : ((513 : Int).toNat : Int) = 513 := by decide
  rw [this]
  omega

/-- No bin lies in two bands. -/
theorem spectogram_bandBins_disjoint (b b' k : Int) (hb0 : 0 ≤ b) (hb : b < 8)
    (hb0' : 0 ≤ b') (hb' : b' < 8) (h : k ∈ SpectogramCpp.bandBins b)
    (h' : k ∈ SpectogramCpp.bandBins b') : b = b' := by
  rw [spectogram_mem_bandBins b k hb0 hb] at h
  rw [spectogram_mem_bandBins b' k hb0' hb'] at h'
  omega

/-- Every bin below `512` lies in band `k / 64`. -/
theorem spectogram_bin_mem_band (k : Int) (h0 : 0 ≤ k) (h1 : k < 512) :
    k ∈ SpectogramCpp.bandBins (k / 64) := by
  rw [spectogram_mem_bandBins (k / 64) k (by omega) (by omega)]
  omega

theorem forRange_NBANDS : forRange SpectogramCpp.NBANDS = [0, 1, 2, 3, 4, 5, 6, 7] := by
  decide

theorem mem_forRange {n t : Int} : t ∈ forRange n ↔ 0 ≤ t ∧ t < n := by
  unfold forRange
  simp only [List.mem_map, List.mem_range, Int.ofNat_eq_coe]
  constructor
  · rintro ⟨a, ha, rfl⟩
    omega
  · rintro ⟨h0, h1⟩
    exact ⟨t.toNat, by omega, by omega⟩

/-- Bins below `512` are visited by band `k / 64` and by no other band. -/
theorem spectogram_bandsContaining_low (k : Int) (h0 : 0 ≤ k) (h1 : k < 512) :
    SpectogramCpp.bandsContaining k = [k / 64] := by
  unfold SpectogramCpp.bandsContaining
  have hcongr : (forRange SpectogramCpp.NBANDS).filter
        (fun b => decide (k ∈ SpectogramCpp.bandBins b)) =
      (forRange SpectogramCpp.NBANDS).filter (fun b => b == k / 64) := by
    apply List.filter_congr
    intro b hb
    rw [mem_forRange] at hb
    have hb8 : b < 8 := hb.2
    have hmem := spectogram_mem_bandBins b k hb.1 hb8
    by_cases hm : k ∈ SpectogramCpp.bandBins b
    · have hq : b = k / 64 := by rw [hmem] at hm; omega
      rw [decide_eq_true hm]
      exact (beq_iff_eq.2 hq).symm
    · have hq : ¬ b = k / 64 := by
        intro h
        apply hm
        rw [hmem]
        omega
      rw [decide_eq_false hm]
      exact (beq_eq_false_iff_ne.2 hq).symm
  rw [hcongr, forRange_NBANDS]
  have hq : k / 64 = 0 ∨ k / 64 = 1 ∨ k / 64 = 2 ∨ k / 64 = 3 ∨ k / 64 = 4 ∨ k / 64 = 5 ∨
      k / 64 = 6 ∨ k / 64 = 7 := by omega
  rcases hq with h | h | h | h | h | h | h | h <;> rw [h] <;> decide

/-- The last bin, `512`, is visited by no band. -/
theorem spectogram_bandsContaining_nyquist : SpectogramCpp.bandsContaining 512 = [] := by
  unfold SpectogramCpp.bandsContaining
  rw [List.filter_eq_nil_iff]
  intro b hb
  rw [mem_forRange] at hb
  have hb8 : b < 8 := hb.2
  rw [decide_eq_true_eq, spectogram_mem_bandBins b 512 hb.1 hb8]
  omega

/-- C3 (amended): with `freqBins = 513` and `binsPerBand = 513 / 8 = 64` the bands
are the ranges `[64 b, 64 b + 64)`, `b = 0 .. 7`; the bound `k < freqBins` never cuts
one. Every bin `0 .. 511` is visited by exactly one band (band `k / 64`), no bin by
two bands, and the last bin `512` by no band. -/
theorem C3_bands_cover_bins_below_512 (k : Int) (h0 : 0 ≤ k) (h1 : k < SpectogramCpp.freqBins) :
    SpectogramCpp.bandsContaining k = (if k < 512 then [k / 64] else []) ∧
    ∀ b : Int, 0 ≤ b → b < SpectogramCpp.NBANDS →
      (k ∈ SpectogramCpp.bandBins b ↔ b * 64 ≤ k ∧ k < (b + 1) * 64) := by
  rw [spectogram_freqBins_eq] at h1
  refine ⟨?_, fun b hb0 hb => spectogram_mem_bandBins b k hb0 hb⟩
  by_cases hk : k < 512
  · rw [if_pos hk, spectogram_bandsContaining_low k h0 hk]
  · have h512 : k = 512 := by omega
    rw [if_neg hk, h512, spectogram_bandsContaining_nyquist]

/-- C3 witness: bin `200` lies in band `3` only. -/
theorem C3_bands_cover_bins_below_512_witness :
    (0 : Int) ≤ 200 ∧ (200 : Int) < SpectogramCpp.freqBins ∧
      SpectogramCpp.bandsContaining 200 = [3] :=
  ⟨by decide, by decide, (C3_bands_cover_bins_below_512 200 (by decide) (by decide)).1⟩

/-- C3 as stated fails: bin `512` is a bin (`512 < freqBins = 513`) that no band
visits, so the bands do not cover every bin. -/
theorem C3_counterexample :
    (0 : Int) ≤ 512 ∧ (512 : Int) < SpectogramCpp.freqBins ∧
      SpectogramCpp.bandsContaining 512 = [] ∧ ¬ BandsPartition := by
  refine ⟨by decide, by decide, spectogram_bandsContaining_nyquist, ?_⟩
  intro h
  obtain ⟨b, -, -, hb⟩ := h 512 (by decide) (by decide)
  rw [spectogram_bandsContaining_nyquist] at hb
  exact List.noConfusion hb

/-! ## C8: decimation -/

theorem spectogram_foldl_loopBody {φ : Type} (canvas : Int → φ) (l : List Int) :
    ∀ s : SpectogramCpp.LoopState φ,
      (l.foldl (SpectogramCpp.loopBody canvas) s).drawn = s.drawn ++ l.map canvas ∧
      (l.foldl (SpectogramCpp.loopBody canvas) s).written =
        s.written ++ (l.filter fun t => decide (t % 6 = 0)).map canvas := by
  induction l with
  | nil => intro s; simp
  | cons t l ih =>
    intro s
    rw [List.foldl_cons]
    obtain ⟨h1, h2⟩ := ih (SpectogramCpp.loopBody canvas s t)
    rw [h1, h2]
    have hmod : Int.tmod t 6 = 0 ↔ t % 6 = 0 := by
      rw [← Int.dvd_iff_tmod_eq_zero, Int.dvd_iff_emod_eq_zero]
    by_cases ht : t % 6 = 0
    · rw [List.filter_cons_of_pos (by simpa using ht)]
      simp only [SpectogramCpp.loopBody, if_pos (hmod.2 ht), List.map_cons,
        List.append_assoc, List.singleton_append, and_self]
    · rw [List.filter_cons_of_neg (by simpa using ht)]
      simp only [SpectogramCpp.loopBody, if_neg (fun h => ht (hmod.1 h)), List.map_cons,
        List.append_assoc, List.singleton_append, and_self]

/-- The indices below `n` divisible by 6, in increasing order, are `0, 6, 12, ...`:
there are `⌈n/6⌉` of them. -/
theorem filter_range_mod_six (n : Nat) :
    (List.range n).filter (fun t => decide (t % 6 = 0)) =
      (List.range ((n + 5) / 6)).map (fun j => 6 * j) := by
  induction n with
  | zero => rfl
  | succ n ih =>
    rw [List.range_succ, List.filter_append, ih]
    by_cases hn : n % 6 = 0
    · have h1 : (n + 1 + 5) / 6 = (n + 5) / 6 + 1 := by omega
      have h2 : 6 * ((n + 5) / 6) = n := by omega
      rw [h1, List.range_succ, List.map_append]
      simp [hn, h2]
    · have h1 : (n + 1 + 5) / 6 = (n + 5) / 6 := by omega
      rw [h1]
      simp [hn]

theorem forRange_filter_mod_six (n : Int) (hn : 0 ≤ n) :
    (forRange n).filter (fun t => decide (t % 6 = 0)) =
      (forRange ((n + 5) / 6)).map (fun j => 6 * j) := by
  obtain ⟨m, rfl⟩ := Int.eq_ofNat_of_zero_le hn
  have h1 : ((m : Int) + 5) / 6 = (((m + 5) / 6 : Nat) : Int) := by push_cast; rfl
  rw [h1]
  unfold forRange
  simp only [Int.toNat_ofNat, List.filter_map, List.map_map]
  have h2 : ((fun t : Int => decide (t % 6 = 0)) ∘ Int.ofNat) =
      fun t : Nat => decide (t % 6 = 0) := by
    funext t
    simp only [Function.comp, Int.ofNat_eq_coe]
    congr 1
    apply propext
    omega
  rw [h2, filter_range_mod_six, List.map_map]
  apply List.map_congr_left
  intro j _
  simp

/-- C8: for every frame count `numFrames ≥ 0` the main loop draws the canvas of
every frame `t = 0 .. numFrames - 1` and hands to the writer exactly the canvases
of the frames with `t mod 6 = 0`, in increasing order of `t` (frames
`0, 6, 12, ...`), that is `⌈numFrames / 6⌉` canvases. -/
theorem C8_decimation {φ : Type} (canvas : Int → φ) (numFrames : Int) (hn : 0 ≤ numFrames) :
    (SpectogramCpp.mainLoop canvas numFrames).drawn = (forRange numFrames).map canvas ∧
    (SpectogramCpp.mainLoop canvas numFrames).written =
      ((forRange numFrames).filter fun t => decide (t % 6 = 0)).map canvas ∧
    (SpectogramCpp.mainLoop canvas numFrames).written =
      (forRange ((numFrames + 5) / 6)).map (fun j => canvas (6 * j)) ∧
    ((SpectogramCpp.mainLoop canvas numFrames).written.length : Int) = (numFrames + 5) / 6 := by
  obtain ⟨h1, h2⟩ := spectogram_foldl_loopBody canvas (forRange numFrames)
    { drawn := [], written := [] }
  simp only [List.nil_append] at h1 h2
  have h3 : (SpectogramCpp.mainLoop canvas numFrames).written =
      (forRange ((numFrames + 5) / 6)).map (fun j => canvas (6 * j)) := by
    unfold SpectogramCpp.mainLoop
    rw [h2, forRange_filter_mod_six numFrames hn, List.map_map]
    rfl
  refine ⟨h1, h2, h3, ?_⟩
  rw [h3]
  simp only [List.length_map, forRange, List.length_range]
  exact Int.toNat_of_nonneg (by omega)

/-- C8 witness: 13 frames, of which frames 0, 6 and 12 are written. -/
theorem C8_decimation_witness :
    (0 : Int) ≤ 13 ∧ (SpectogramCpp.mainLoop (fun t => t) 13).written = [0, 6, 12] := by
  refine ⟨by decide, ?_⟩
  rw [(C8_decimation (fun t => t) 13 (by decide)).2.2.1]
  decide

/-! ## C4, C10: ring radii -/

section RingLemmas

variable {α : Type} [LinearOrderedField α] [FloorRing α]

theorem roundGrid_of_toF32 {x y : α} (h : toF32 x = F32.fin y) : roundGrid x = y := by
  unfold toF32 at h
  split_ifs at h
  exact F32.fin.inj h

/-- A rounding between two non-negative binary32 numbers stays between them. -/
theorem toF32_between {a b x : α} (ha : 0 ≤ a) (hax : a ≤ x) (hxb : x ≤ b)
    (hra : toF32 a = F32.fin a) (hrb : toF32 b = F32.fin b) (hb : b ≤ FLT_MAX) :
    F32.Within a b (toF32 x) := by
  have h1 : roundGrid a ≤ roundGrid x := roundGrid_mono ha hax
  have h2 : roundGrid x ≤ roundGrid b := roundGrid_mono (le_trans ha hax) hxb
  rw [roundGrid_of_toF32 hra] at h1
  rw [roundGrid_of_toF32 hrb] at h2
  have hF := FLT_MAX_pos (α := α)
  exact ⟨roundGrid x, toF32_of_roundGrid rfl (by linarith) (by linarith), h1, h2⟩

theorem spectogram_maxRadius_eq : (SpectogramCpp.maxRadius : F32 α) = F32.fin 270 := by
  unfold SpectogramCpp.maxRadius
  have h600 : (((min 800 600 : Int)) : α) = 600 := by norm_num
  rw [h600, toF32_600, toF32_045]
  unfold F32.mul
  apply toF32_eq_pos _ 8 8847360 <;> norm_num [FLT_MAX]

theorem toF32_eps_idem :
    toF32 (8796093 / 8796093022208 : α) = F32.fin (8796093 / 8796093022208) := by
  apply toF32_eq_pos _ (-20) 8796093 <;> norm_num [FLT_MAX]

theorem foldl_largest (l : List (F32 α)) (hl : ∀ v ∈ l, F32.IsEnergy v) :
    ∀ a : α, 0 ≤ a → toF32 a = F32.fin a →
      ∃ m : α, l.foldl (fun largest y => if F32.lt largest y then y else largest) (F32.fin a) =
          F32.fin m ∧ 0 ≤ m ∧ toF32 m = F32.fin m ∧ a ≤ m ∧
        ∀ x : α, F32.fin x ∈ l → x ≤ m := by
  induction l with
  | nil =>
    intro a ha hra
    exact ⟨a, rfl, ha, hra, le_refl a, fun x hx => by simp at hx⟩
  | cons v l ih =>
    intro a ha hra
    obtain ⟨y, rfl, hy0, hry⟩ := hl v (List.mem_cons_self v l)
    have hl' : ∀ v ∈ l, F32.IsEnergy v := fun v hv => hl v (List.mem_cons_of_mem _ hv)
    rw [List.foldl_cons]
    by_cases hay : a < y
    · have hstep : (if F32.lt (F32.fin a) (F32.fin y) then F32.fin y else F32.fin a) =
          F32.fin y := by simp [F32.lt, hay]
      rw [hstep]
      obtain ⟨m, hm, hm0, hrm, hym, hall⟩ := ih hl' y hy0 hry
      refine ⟨m, hm, hm0, hrm, by linarith, ?_⟩
      intro x hx
      rcases List.mem_cons.1 hx with hxy | hxl
      · have : x = y := F32.fin.inj hxy
        linarith
      · exact hall x hxl
    · have hstep : (if F32.lt (F32.fin a) (F32.fin y) then F32.fin y else F32.fin a) =
          F32.fin a := by simp [F32.lt, hay]
      rw [hstep]
      obtain ⟨m, hm, hm0, hrm, ham, hall⟩ := ih hl' a ha hra
      refine ⟨m, hm, hm0, hrm, ham, ?_⟩
      intro x hx
      rcases List.mem_cons.1 hx with hxy | hxl
      · have : x = y := F32.fin.inj hxy
        linarith
      · exact hall x hxl

/-- The largest of a vector of energies is an energy above all of them. -/
theorem spectogram_maxElement_energy (bands : List (F32 α))
    (hl : ∀ v ∈ bands, F32.IsEnergy v) :
    ∃ m : α, SpectogramCpp.maxElement bands = F32.fin m ∧ 0 ≤ m ∧ toF32 m = F32.fin m ∧
      ∀ x : α, F32.fin x ∈ bands → x ≤ m := by
  cases bands with
  | nil => exact ⟨0, rfl, le_refl 0, toF32_zero, fun x hx => by simp at hx⟩
  | cons v l =>
    obtain ⟨y, rfl, hy0, hry⟩ := hl v (List.mem_cons_self v l)
    obtain ⟨m, hm, hm0, hrm, hym, hall⟩ :=
      foldl_largest l (fun v hv => hl v (List.mem_cons_of_mem _ hv)) y hy0 hry
    refine ⟨m, hm, hm0, hrm, ?_⟩
    intro x hx
    rcases List.mem_cons.1 hx with hxy | hxl
    · have : x = y := F32.fin.inj hxy
      linarith
    · exact hall x hxl

/-- The normalised value of a band of a vector of energies is a finite number in
`[0, 1]`. -/
theorem spectogram_normVal_within (bands : List (F32 α)) (hl : ∀ v ∈ bands, F32.IsEnergy v)
    (v : F32 α) (hv : v ∈ bands) : F32.Within 0 1 (SpectogramCpp.normVal bands v) := by
  obtain ⟨m, hm, hm0, hrm, hall⟩ := spectogram_maxElement_energy bands hl
  obtain ⟨x, rfl, hx0, -⟩ := hl v hv
  have hxm : x ≤ m := hall x hv
  have he0 : (0 : α) < 8796093 / 8796093022208 := by norm_num
  have hF := FLT_MAX_pos (α := α)
  unfold SpectogramCpp.normVal
  rw [hm, toF32_eps]
  have hadd : F32.add (F32.fin m) (F32.fin (8796093 / 8796093022208 : α)) =
      toF32 (m + 8796093 / 8796093022208) := rfl
  rw [hadd]
  have hd1 : m ≤ roundGrid (m + 8796093 / 8796093022208) := by
    have := roundGrid_mono (x := m) (y := m + 8796093 / 8796093022208) hm0 (by linarith)
    rwa [roundGrid_of_toF32 hrm] at this
  have hd2 : (8796093 / 8796093022208 : α) ≤ roundGrid (m + 8796093 / 8796093022208) := by
    have := roundGrid_mono (x := (8796093 / 8796093022208 : α))
      (y := m + 8796093 / 8796093022208) he0.le (by linarith)
    rwa [roundGrid_of_toF32 toF32_eps_idem] at this
  unfold toF32
  by_cases hov : FLT_MAX < roundGrid (m + 8796093 / 8796093022208)
  · rw [if_pos hov]
    exact ⟨0, rfl, le_refl 0, zero_le_one⟩
  · rw [if_neg hov, if_neg (by linarith)]
    have hd0 : roundGrid (m + 8796093 / 8796093022208) ≠ 0 := by
      intro h; rw [h] at hd2; linarith
    have hdiv : F32.div (F32.fin x) (F32.fin (roundGrid (m + 8796093 / 8796093022208))) =
        toF32 (x / roundGrid (m + 8796093 / 8796093022208)) := by
      simp only [F32.div, if_neg hd0]
    rw [hdiv]
    have hpos : 0 < roundGrid (m + 8796093 / 8796093022208) := by linarith
    have hq0 : 0 ≤ x / roundGrid (m + 8796093 / 8796093022208) := div_nonneg hx0 hpos.le
    have hq1 : x / roundGrid (m + 8796093 / 8796093022208) ≤ 1 := by
      rw [div_le_one hpos]; linarith
    exact toF32_between (le_refl 0) hq0 hq1 toF32_zero toF32_one (by linarith [hF, show (1:α) ≤ FLT_MAX from by unfold FLT_MAX; norm_num])

/-- The ring radius of a band of a vector of energies is a finite number in
`[60, 270]`. -/
theorem spectogram_radius_within (bands : List (F32 α)) (hl : ∀ v ∈ bands, F32.IsEnergy v)
    (v : F32 α) (hv : v ∈ bands) : F32.Within 60 270 (SpectogramCpp.radius bands v) := by
  obtain ⟨nv, hnv, h0, h1⟩ := spectogram_normVal_within bands hl v hv
  have h270 : (270 : α) ≤ FLT_MAX := by unfold FLT_MAX; norm_num
  have h120 : (120 : α) ≤ FLT_MAX := by unfold FLT_MAX; norm_num
  unfold SpectogramCpp.radius
  rw [hnv, spectogram_maxRadius_eq, toF32_sixty]
  have hmul : F32.mul (F32.fin nv) (F32.fin (270 : α)) = toF32 (nv * 270) := rfl
  rw [hmul]
  obtain ⟨r, hr, hr0, hr1⟩ := toF32_between (a := 0) (b := 270) (x := nv * 270) (le_refl 0)
    (by positivity) (by linarith) toF32_zero toF32_270 h270
  rw [hr]
  by_cases hlt : r < 60
  · have hc : F32.lt (F32.fin r) (F32.fin (60 : α)) = true := by simp [F32.lt, hlt]
    rw [if_pos hc]
    have hadd : F32.add (F32.fin r) (F32.fin (60 : α)) = toF32 (r + 60) := rfl
    rw [hadd]
    obtain ⟨y, hy, hy0, hy1⟩ := toF32_between (a := 60) (b := 120) (x := r + 60) (by norm_num)
      (by linarith) (by linarith) toF32_sixty toF32_120 h120
    exact ⟨y, hy, hy0, by linarith⟩
  · have hc : ¬ (F32.lt (F32.fin r) (F32.fin (60 : α)) = true) := by simp [F32.lt, hlt]
    rw [if_neg hc]
    exact ⟨r, rfl, by linarith, hr1⟩

theorem toF32_64 : toF32 (64 : α) = F32.fin 64 := by
  apply toF32_eq_pos 64 6 8388608 <;> norm_num [FLT_MAX]

theorem toF32_16 : toF32 (16 : α) = F32.fin 16 := by
  apply toF32_eq_pos 16 4 8388608 <;> norm_num [FLT_MAX]

theorem toF32_8 : toF32 (8 : α) = F32.fin 8 := by
  apply toF32_eq_pos 8 3 8388608 <;> norm_num [FLT_MAX]

end RingLemmas

theorem stepFrame_energy : ∀ v ∈ stepFrame, F32.IsEnergy v := by
  intro v hv
  simp only [stepFrame, List.mem_cons, List.mem_singleton, List.not_mem_nil, or_false] at hv
  rcases hv with h | h | h | h | h | h | h | h <;> rw [h]
  · exact ⟨64, rfl, by norm_num, toF32_64⟩
  · exact ⟨16, rfl, by norm_num, toF32_16⟩
  · exact ⟨8, rfl, by norm_num, toF32_8⟩
  all_goals exact ⟨0, rfl, le_refl 0, toF32_zero⟩

theorem tenthsFrame_energy : ∀ v ∈ tenthsFrame, F32.IsEnergy v := by
  intro v hv
  simp only [tenthsFrame, List.mem_cons, List.mem_singleton, List.not_mem_nil, or_false] at hv
  rcases hv with h | h | h | h | h | h | h | h <;> rw [h]
  · exact ⟨1, rfl, by norm_num, toF32_one⟩
  · refine ⟨5033165 / 16777216, rfl, by norm_num, ?_⟩
    apply toF32_eq_pos _ (-2) 10066330 <;> norm_num [FLT_MAX]
  · refine ⟨13421773 / 67108864, rfl, by norm_num, ?_⟩
    apply toF32_eq_pos _ (-3) 13421773 <;> norm_num [FLT_MAX]
  all_goals exact ⟨0, rfl, le_refl 0, toF32_zero⟩

theorem tenthsFrame_denominator :
    F32.add (SpectogramCpp.maxElement tenthsFrame) (toF32 (1 / 1000000)) =
      F32.fin (1048577 / 1048576) := by
  have hmax : SpectogramCpp.maxElement tenthsFrame = F32.fin 1 := by
    norm_num [tenthsFrame, SpectogramCpp.maxElement, F32.lt]
  rw [hmax, toF32_eps]
  unfold F32.add
  apply toF32_eq_pos _ 0 8388616 <;> norm_num [FLT_MAX]

theorem tenthsFrame_scaled_03 :
    F32.mul (SpectogramCpp.normVal tenthsFrame (F32.fin (5033165 / 16777216)))
      SpectogramCpp.maxRadius = F32.fin (5308411 / 65536) := by
  have hn : SpectogramCpp.normVal tenthsFrame (F32.fin (5033165 / 16777216)) =
      F32.fin (629145 / 2097152) := by
    unfold SpectogramCpp.normVal
    rw [tenthsFrame_denominator]
    simp only [F32.div]
    rw [if_neg (by norm_num)]
    apply toF32_eq_pos _ (-2) 10066320 <;> norm_num [FLT_MAX]
  rw [hn, spectogram_maxRadius_eq]
  unfold F32.mul
  apply toF32_eq_pos _ 6 10616822 <;> norm_num [FLT_MAX]

theorem tenthsFrame_scaled_02 :
    F32.mul (SpectogramCpp.normVal tenthsFrame (F32.fin (13421773 / 67108864)))
      SpectogramCpp.maxRadius = F32.fin (7077881 / 131072) := by
  have hn : SpectogramCpp.normVal tenthsFrame (F32.fin (13421773 / 67108864)) =
      F32.fin (209715 / 1048576) := by
    unfold SpectogramCpp.normVal
    rw [tenthsFrame_denominator]
    simp only [F32.div]
    rw [if_neg (by norm_num)]
    apply toF32_eq_pos _ (-3) 13421760 <;> norm_num [FLT_MAX]
  rw [hn, spectogram_maxRadius_eq]
  unfold F32.mul
  apply toF32_eq_tie _ 5 14155762 <;> norm_num [FLT_MAX]

/-- The frame `1, 0.3f, 0.2f, 0, ...`: the literals round as stated, the band `0.3f`
gets the radius `80.99992...` (drawn with `80`) without the boost and the band `0.2f`
the boosted radius `113.99994...` (drawn with `113`); the product `normVal * 270` of
the band `0.2f` is a tie, rounded to even. -/
theorem tenthsFrame_radii :
    toF32 (3 / 10 : ℚ) = F32.fin (5033165 / 16777216) ∧
    toF32 (2 / 10 : ℚ) = F32.fin (13421773 / 67108864) ∧
    SpectogramCpp.radius tenthsFrame (F32.fin (5033165 / 16777216)) =
      F32.fin (5308411 / 65536) ∧
    SpectogramCpp.radius tenthsFrame (F32.fin (13421773 / 67108864)) =
      F32.fin (14942201 / 131072) := by
  refine ⟨?_, ?_, ?_, ?_⟩
  · apply toF32_eq_pos _ (-2) 10066330 <;> norm_num [FLT_MAX]
  · apply toF32_eq_pos _ (-3) 13421773 <;> norm_num [FLT_MAX]
  · unfold SpectogramCpp.radius
    rw [tenthsFrame_scaled_03, toF32_sixty]
    have hc : F32.lt (F32.fin (5308411 / 65536 : ℚ)) (F32.fin 60) = false := by
      simp only [F32.lt, decide_eq_false_iff_not]; norm_num
    rw [hc]
    rfl
  · unfold SpectogramCpp.radius
    rw [tenthsFrame_scaled_02, toF32_sixty]
    have hc : F32.lt (F32.fin (7077881 / 131072 : ℚ)) (F32.fin 60) = true := by
      simp only [F32.lt, decide_eq_true_eq]; norm_num
    rw [if_pos hc]
    unfold F32.add
    apply toF32_eq_pos _ 6 14942201 <;> norm_num [FLT_MAX]

/-- Rounding in the comparison with 60: in the frame `72, 16, 0, ...` the band `16`
has the normalised value `fl(16/72)` and the scaled value `fl(fl(16/72) * 270) = 60`
exactly, so it is not below 60 and is left without the boost. -/
theorem nearFloorFrame_radius_16 :
    SpectogramCpp.normVal nearFloorFrame (F32.fin 16) = F32.fin (14913081 / 67108864) ∧
    F32.lt (F32.mul (SpectogramCpp.normVal nearFloorFrame (F32.fin 16))
      SpectogramCpp.maxRadius) (toF32 60) = false ∧
    SpectogramCpp.radius nearFloorFrame (F32.fin 16) = F32.fin 60 := by
  have hmax : SpectogramCpp.maxElement nearFloorFrame = F32.fin 72 := by
    norm_num [nearFloorFrame, SpectogramCpp.maxElement, F32.lt]
  have hden : F32.add (SpectogramCpp.maxElement nearFloorFrame) (toF32 (1 / 1000000)) =
      F32.fin 72 := by
    rw [hmax, toF32_eps]
    unfold F32.add
    apply toF32_eq_pos _ 6 9437184 <;> norm_num [FLT_MAX]
  have hn : SpectogramCpp.normVal nearFloorFrame (F32.fin 16) =
      F32.fin (14913081 / 67108864) := by
    unfold SpectogramCpp.normVal
    rw [hden]
    simp only [F32.div]
    rw [if_neg (by norm_num)]
    apply toF32_eq_pos _ (-3) 14913081 <;> norm_num [FLT_MAX]
  have hs : F32.mul (SpectogramCpp.normVal nearFloorFrame (F32.fin 16))
      SpectogramCpp.maxRadius = F32.fin 60 := by
    rw [hn, spectogram_maxRadius_eq]
    unfold F32.mul
    apply toF32_eq_pos _ 5 15728640 <;> norm_num [FLT_MAX]
  have hc : F32.lt (F32.fin (60 : ℚ)) (F32.fin 60) = false := by
    simp only [F32.lt, decide_eq_false_iff_not]; norm_num
  refine ⟨hn, by rw [hs, toF32_sixty, hc], ?_⟩
  unfold SpectogramCpp.radius
  rw [hs, toF32_sixty, hc]
  rfl

/-- Rounding in the denominator: in the frame `1000, 0, ...` the sum `1000 + 1e-6f`
rounds to `1000`, the normalised value of the loudest band is exactly `1` and its
radius is exactly `maxRadius = 270`. -/
theorem loudFrame_radius :
    F32.add (SpectogramCpp.maxElement loudFrame) (toF32 (1 / 1000000)) = F32.fin 1000 ∧
    SpectogramCpp.normVal loudFrame (F32.fin 1000) = F32.fin 1 ∧
    SpectogramCpp.radius loudFrame (F32.fin 1000) = F32.fin 270 := by
  have hmax : SpectogramCpp.maxElement loudFrame = F32.fin 1000 := by
    norm_num [loudFrame, SpectogramCpp.maxElement, F32.lt]
  have hden : F32.add (SpectogramCpp.maxElement loudFrame) (toF32 (1 / 1000000)) =
      F32.fin 1000 := by
    rw [hmax, toF32_eps]
    unfold F32.add
    apply toF32_eq_pos _ 9 16384000 <;> norm_num [FLT_MAX]
  have hn : SpectogramCpp.normVal loudFrame (F32.fin 1000) = F32.fin 1 := by
    unfold SpectogramCpp.normVal
    rw [hden]
    simp only [F32.div]
    rw [if_neg (by norm_num)]
    have h1 : (1000 : ℚ) / 1000 = 1 := by norm_num
    rw [h1, toF32_one]
  have hs : F32.mul (SpectogramCpp.normVal loudFrame (F32.fin 1000))
      SpectogramCpp.maxRadius = F32.fin 270 := by
    rw [hn, spectogram_maxRadius_eq]
    have hmul : F32.mul (F32.fin (1 : ℚ)) (F32.fin 270) = toF32 (1 * 270) := rfl
    rw [hmul, one_mul, toF32_270]
  have hc : F32.lt (F32.fin (270 : ℚ)) (F32.fin 60) = false := by
    simp only [F32.lt, decide_eq_false_iff_not]; norm_num
  refine ⟨hden, hn, ?_⟩
  unfold SpectogramCpp.radius
  rw [hs, toF32_sixty, hc]
  rfl

/-- C4 (amended): for every vector of 8 finite non-negative binary32 band energies,
every ring radius of the frame (binary32: `normVal = band / (max + 1e-6f)`,
`radius = normVal * maxRadius`, plus 60 when below 60, with
`maxRadius = 600 * 0.45f = 270`) is a finite value in `[60, maxRadius + 60]`,
`maxRadius + 60 = 330`. -/
theorem C4_radius_in_range {α : Type} [LinearOrderedField α] [FloorRing α]
    (bands : List (F32 α)) (hlen : bands.length = 8) (hl : ∀ v ∈ bands, F32.IsEnergy v) :
    (SpectogramCpp.ringRadii bands).length = 8 ∧
    (SpectogramCpp.maxRadius : F32 α) = F32.fin 270 ∧
    F32.add (SpectogramCpp.maxRadius : F32 α) (toF32 60) = F32.fin 330 ∧
    ∀ r ∈ SpectogramCpp.ringRadii bands, F32.Within 60 330 r := by
  refine ⟨by simp [SpectogramCpp.ringRadii, hlen], spectogram_maxRadius_eq, ?_, ?_⟩
  · rw [spectogram_maxRadius_eq, toF32_sixty]
    have hadd : F32.add (F32.fin (270 : α)) (F32.fin 60) = toF32 (270 + 60) := rfl
    have h : (270 : α) + 60 = 330 := by norm_num
    rw [hadd, h, toF32_330]
  · intro r hr
    unfold SpectogramCpp.ringRadii at hr
    obtain ⟨v, hv, rfl⟩ := List.mem_map.1 hr
    obtain ⟨y, hy, h0, h1⟩ := spectogram_radius_within bands hl v hv
    exact ⟨y, hy, h0, by linarith⟩

/-- C4 witness: the frame `64, 16, 8, 0, 0, 0, 0, 0`. -/
theorem C4_radius_in_range_witness :
    stepFrame.length = 8 ∧ (∀ v ∈ stepFrame, F32.IsEnergy v) ∧
      ∀ r ∈ SpectogramCpp.ringRadii stepFrame, F32.Within 60 330 r :=
  ⟨rfl, stepFrame_energy, (C4_radius_in_range stepFrame rfl stepFrame_energy).2.2.2⟩

/-- C4 as stated fails: in the frame `+inf, 0, 0, 0, 0, 0, 0, 0` every band is
non-negative, the normalised value of the first band is `inf / inf`, a NaN, and so
is its radius, which lies in no interval. -/
theorem C4_counterexample :
    infFrame.length = 8 ∧ (∀ v ∈ infFrame, F32.IsNonneg v) ∧
      SpectogramCpp.radius infFrame (F32.inf false) = F32.nan ∧
      ¬ ∀ r ∈ SpectogramCpp.ringRadii infFrame, F32.Within 60 330 r := by
  have hmax : SpectogramCpp.maxElement infFrame = F32.inf false := by
    norm_num [infFrame, SpectogramCpp.maxElement, F32.lt]
  have hn : SpectogramCpp.normVal infFrame (F32.inf false) = F32.nan := by
    unfold SpectogramCpp.normVal
    rw [hmax, toF32_eps]
    rfl
  have hr : SpectogramCpp.radius infFrame (F32.inf false) = F32.nan := by
    unfold SpectogramCpp.radius
    rw [hn, spectogram_maxRadius_eq, toF32_sixty]
    rfl
  refine ⟨rfl, ?_, hr, ?_⟩
  · intro v hv
    simp only [infFrame, List.mem_cons, List.mem_singleton, List.not_mem_nil, or_false] at hv
    rcases hv with h | h | h | h | h | h | h | h <;> rw [h] <;> simp [F32.IsNonneg]
  · intro h
    have hmem : SpectogramCpp.radius infFrame (F32.inf false) ∈
        SpectogramCpp.ringRadii infFrame := by
      unfold SpectogramCpp.ringRadii
      exact List.mem_map_of_mem _ (by simp [infFrame])
    obtain ⟨y, hy, -, -⟩ := h _ hmem
    rw [hr] at hy
    exact F32.noConfusion hy

/-- C10: the floor boost is not monotone. In the frame `1, 0.3f, 0.2f, 0, 0, 0, 0, 0`
(binary32) the band of energy `0.2f` scales below 60 and is boosted (to `113.99...`),
the band of energy `0.3f` scales to `80.99...`, not below 60, and is left alone, and
the ring of the weaker band is the larger one. -/
theorem C10_floor_boost_not_monotone :
    ∃ (bands : List (F32 ℚ)) (lo hi : ℚ), bands.length = 8 ∧ (∀ v ∈ bands, F32.IsEnergy v) ∧
      F32.fin lo ∈ bands ∧ F32.fin hi ∈ bands ∧ lo < hi ∧
      F32.lt (F32.mul (SpectogramCpp.normVal bands (F32.fin lo)) SpectogramCpp.maxRadius)
        (toF32 60) = true ∧
      F32.lt (F32.mul (SpectogramCpp.normVal bands (F32.fin hi)) SpectogramCpp.maxRadius)
        (toF32 60) = false ∧
      F32.lt (SpectogramCpp.radius bands (F32.fin hi))
        (SpectogramCpp.radius bands (F32.fin lo)) = true := by
  refine ⟨tenthsFrame, 13421773 / 67108864, 5033165 / 16777216, rfl, tenthsFrame_energy,
    by simp [tenthsFrame], by simp [tenthsFrame], by norm_num, ?_, ?_, ?_⟩
  · rw [tenthsFrame_scaled_02, toF32_sixty]
    simp only [F32.lt, decide_eq_true_eq]; norm_num
  · rw [tenthsFrame_scaled_03, toF32_sixty]
    simp only [F32.lt, decide_eq_false_iff_not]; norm_num
  · rw [tenthsFrame_radii.2.2.1, tenthsFrame_radii.2.2.2]
    simp only [F32.lt, decide_eq_true_eq]; norm_num

/-! ## C7: Hann window -/

theorem main_window_get (N i : Nat) (hi : i < N) :
    (MainCpp.window (N : Int))[i]? = some (hannCoeff N i) := by
  unfold MainCpp.window forRange hannCoeff
  rw [List.getElem?_map, List.getElem?_map, Int.toNat_ofNat, List.getElem?_range hi]
  simp only [Option.map_some', Int.ofNat_eq_coe, Int.cast_natCast, Int.cast_sub, Int.cast_one]

theorem spectogram_window_eq (N : Int) : SpectogramCpp.window N = MainCpp.window N := rfl

theorem main_window_length (N : Nat) : (MainCpp.window (N : Int)).length = N := by
  unfold MainCpp.window forRange
  rw [List.length_map, List.length_map, List.length_range, Int.toNat_ofNat]

theorem hannCoeff_zero (N : Nat) : hannCoeff N 0 = 0 := by
  simp [hannCoeff]

theorem hannCoeff_symm (N i : Nat) (hN : 2 ≤ N) (hi : i < N) :
    hannCoeff N (N - 1 - i) = hannCoeff N i := by
  have hN' : ((N : ℝ) - 1) ≠ 0 := by
    have : (2 : ℝ) ≤ N := by exact_mod_cast hN
    linarith
  have hcast : ((N - 1 - i : Nat) : ℝ) = ((N : ℝ) - 1) - i := by
    rw [Nat.cast_sub (by omega), Nat.cast_sub (by omega)]
    simp
  unfold hannCoeff
  rw [hcast]
  have harg : 2 * Real.pi * (((N : ℝ) - 1) - i) / ((N : ℝ) - 1) =
      2 * Real.pi - 2 * Real.pi * (i : ℝ) / ((N : ℝ) - 1) := by
    field_simp
    ring
  rw [harg, Real.cos_two_pi_sub]

theorem hannCoeff_last (N : Nat) (hN : 2 ≤ N) : hannCoeff N (N - 1) = 0 := by
  have h := hannCoeff_symm N 0 hN (by omega)
  rw [hannCoeff_zero] at h
  simpa using h

/-- C7: for every `N ≥ 2` (in particular `N = 1024`) the Hann table of either
front end, over the reals, has length `N`, starts and ends with `0`, and is
symmetric: `w[i] = w[N-1-i]` for every `i < N`. -/
theorem C7_hann_window (N : Nat) (hN : 2 ≤ N) :
    (MainCpp.window (N : Int)).length = N ∧ (SpectogramCpp.window (N : Int)).length = N ∧
    (MainCpp.window (N : Int))[0]? = some 0 ∧ (MainCpp.window (N : Int))[N - 1]? = some 0 ∧
    (SpectogramCpp.window (N : Int))[0]? = some 0 ∧
    (SpectogramCpp.window (N : Int))[N - 1]? = some 0 ∧
    ∀ i, i < N →
      (MainCpp.window (N : Int))[i]? = some (hannCoeff N i) ∧
      (MainCpp.window (N : Int))[i]? = (MainCpp.window (N : Int))[N - 1 - i]? ∧
      (SpectogramCpp.window (N : Int))[i]? = (SpectogramCpp.window (N : Int))[N - 1 - i]? := by
  have h0 : (MainCpp.window (N : Int))[0]? = some 0 := by
    rw [main_window_get N 0 (by omega), hannCoeff_zero]
  have h1 : (MainCpp.window (N : Int))[N - 1]? = some 0 := by
    rw [main_window_get N (N - 1) (by omega), hannCoeff_last N hN]
  have hs : ∀ i, i < N →
      (MainCpp.window (N : Int))[i]? = (MainCpp.window (N : Int))[N - 1 - i]? := by
    intro i hi
    rw [main_window_get N i hi, main_window_get N (N - 1 - i) (by omega),
      hannCoeff_symm N i hN hi]
  simp only [spectogram_window_eq]
  exact ⟨main_window_length N, main_window_length N, h0, h1, h0, h1,
    fun i hi => ⟨main_window_get N i hi, hs i hi, hs i hi⟩⟩

/-- C7 witness: the table of the programs, `N = NFFT = 1024`. -/
theorem C7_hann_window_witness :
    2 ≤ 1024 ∧ (MainCpp.window MainCpp.NFFT).length = 1024 ∧
      (MainCpp.window MainCpp.NFFT)[1023]? = some 0 :=
  ⟨by decide, (C7_hann_window 1024 (by decide)).1, (C7_hann_window 1024 (by decide)).2.2.2.1⟩

/-! ## C9: the shared analysis stage -/

section ExtremaLemmas

variable {α : Type} [LinearOrderedField α]

theorem foldl_min_const (d : α) (l : List α) (h : ∀ x ∈ l, x = d) : l.foldl min d = d := by
  induction l with
  | nil => rfl
  | cons y l ih =>
    have hy : y = d := h y (List.mem_cons_self y l)
    rw [List.foldl_cons, hy, min_self]
    exact ih fun x hx => h x (List.mem_cons_of_mem y hx)

theorem foldl_max_const (d : α) (l : List α) (h : ∀ x ∈ l, x = d) : l.foldl max d = d := by
  induction l with
  | nil => rfl
  | cons y l ih =>
    have hy : y = d := h y (List.mem_cons_self y l)
    rw [List.foldl_cons, hy, max_self]
    exact ih fun x hx => h x (List.mem_cons_of_mem y hx)

theorem main_logMat_const (lg : α → α) (spec : List (List α)) (c : α)
    (h : ∀ row ∈ spec, ∀ v ∈ row, v = c) :
    ∀ row ∈ MainCpp.logMat lg (MainCpp.addEpsilon spec),
      ∀ v ∈ row, v = lg (c + 1 / 1000000) := by
  intro row hrow v hv
  simp only [MainCpp.logMat, MainCpp.addEpsilon, List.map_map, List.mem_map,
    Function.comp] at hrow
  obtain ⟨r0, hr0, rfl⟩ := hrow
  simp only [List.mem_map] at hv
  obtain ⟨w, hw, rfl⟩ := hv
  rw [h r0 hr0 w hw]
  rfl

/-- A matrix with all entries equal has equal extrema. -/
theorem main_extrema_of_const (m : List (List α)) (d : α)
    (h : ∀ row ∈ m, ∀ v ∈ row, v = d) : MainCpp.maxEntry m - MainCpp.minEntry m = 0 := by
  have hflat : ∀ x ∈ m.flatten, x = d := by
    intro x hx
    obtain ⟨row, hrow, hxr⟩ := List.mem_flatten.1 hx
    exact h row hrow x hxr
  unfold MainCpp.maxEntry MainCpp.minEntry
  cases hm : m.flatten with
  | nil => simp
  | cons y l =>
    rw [hm] at hflat
    have hy : y = d := hflat y (List.mem_cons_self y l)
    have hl : ∀ x ∈ l, x = d := fun x hx => hflat x (List.mem_cons_of_mem y hx)
    simp only [hy, foldl_max_const d l hl, foldl_min_const d l hl, sub_self]

theorem main_normScale_of_const (m : List (List α)) (d a b : α)
    (h : ∀ row ∈ m, ∀ v ∈ row, v = d) : MainCpp.normScale m a b = 0 := by
  unfold MainCpp.normScale
  rw [main_extrema_of_const m d h]
  have : ¬ ((0 : α) > MainCpp.DBL_EPSILON) := by
    unfold MainCpp.DBL_EPSILON
    norm_num
  rw [if_neg this, mul_zero]

end ExtremaLemmas

section RendererLemmas

variable {α : Type} [LinearOrderedField α] [FloorRing α]

theorem main_cvRound_zero : MainCpp.cvRound (0 : α) = 0 := by
  simp [MainCpp.cvRound]

/-- The whole stage on a matrix with all entries equal: every pixel is `0`. -/
theorem main_logSpec_of_const (lg : α → α) (spec : List (List α)) (c : α)
    (h : ∀ row ∈ spec, ∀ v ∈ row, v = c) :
    MainCpp.logSpec lg spec = spec.map fun row => row.map fun _ => 0 := by
  have hlog := main_logMat_const lg spec c h
  have hscale := main_normScale_of_const _ _ (0 : α) 255 hlog
  unfold MainCpp.logSpec MainCpp.convertTo8U MainCpp.normalizeMinMax
  unfold MainCpp.normShift
  rw [hscale]
  simp only [mul_zero, sub_zero, add_zero]
  have hmin : min (0 : α) 255 = 0 := min_eq_left (by norm_num)
  rw [hmin]
  simp only [MainCpp.logMat, MainCpp.addEpsilon, List.map_map]
  apply List.map_congr_left
  intro row _
  simp only [Function.comp, List.map_map]
  apply List.map_congr_left
  intro v _
  simp only [Function.comp, add_zero, main_cvRound_zero, MainCpp.saturateU8]
  rfl

end RendererLemmas

/-- The stage on a matrix with two levels (identity in place of the logarithm): the
minimum maps to `0` and the maximum to `255`. -/
theorem main_logSpec_two_levels :
    MainCpp.logSpec (fun x : ℚ => x) [[0, 1]] = [[0, 255]] := by
  have hmax : MainCpp.maxEntry (MainCpp.logMat (fun x : ℚ => x)
      (MainCpp.addEpsilon [[0, 1]])) = 1 + 1 / 1000000 := by
    norm_num [MainCpp.maxEntry, MainCpp.logMat, MainCpp.addEpsilon]
  have hmin : MainCpp.minEntry (MainCpp.logMat (fun x : ℚ => x)
      (MainCpp.addEpsilon [[0, 1]])) = 1 / 1000000 := by
    norm_num [MainCpp.minEntry, MainCpp.logMat, MainCpp.addEpsilon]
  have hs : MainCpp.normScale (MainCpp.logMat (fun x : ℚ => x)
      (MainCpp.addEpsilon [[0, 1]])) 0 255 = 255 := by
    unfold MainCpp.normScale
    rw [hmax, hmin]
    norm_num [MainCpp.DBL_EPSILON]
  have hsh : MainCpp.normShift (MainCpp.logMat (fun x : ℚ => x)
      (MainCpp.addEpsilon [[0, 1]])) 0 255 = -255 / 1000000 := by
    unfold MainCpp.normShift
    rw [hs, hmin]
    norm_num
  unfold MainCpp.logSpec MainCpp.convertTo8U MainCpp.normalizeMinMax
  rw [hs, hsh]
  norm_num [MainCpp.logMat, MainCpp.addEpsilon, MainCpp.cvRound, MainCpp.saturateU8]

/-- C5 (amended): if every entry of the magnitude matrix is equal, the
log/normalize/convert stage (which has no case of its own for a zero range) gets
the factor `scale = 0` from `cv::normalize`, takes no reciprocal of the zero range,
and emits a constant 8-bit image in which every pixel is `0`. -/
theorem C5_constant_matrix_gives_zero_image {α : Type} [LinearOrderedField α] [FloorRing α]
    (lg : α → α) (spec : List (List α)) (c : α) (h : ∀ row ∈ spec, ∀ v ∈ row, v = c) :
    MainCpp.normScale (MainCpp.logMat lg (MainCpp.addEpsilon spec)) 0 255 = 0 ∧
    MainCpp.logSpec lg spec = spec.map fun row => row.map fun _ => 0 := by
  exact ⟨main_normScale_of_const _ (lg (c + 1 / 1000000)) 0 255
    (main_logMat_const lg spec c h), main_logSpec_of_const lg spec c h⟩

/-- C5 witness: a `2 x 2` matrix of equal magnitudes `3` over the rationals. -/
theorem C5_constant_matrix_gives_zero_image_witness :
    (∀ row ∈ ([[3, 3], [3, 3]] : List (List ℚ)), ∀ v ∈ row, v = 3) ∧
      MainCpp.logSpec (fun x : ℚ => x) [[3, 3], [3, 3]] = [[0, 0], [0, 0]] :=
  ⟨by simp,
    (C5_constant_matrix_gives_zero_image (fun x : ℚ => x) [[3, 3], [3, 3]] 3 (by simp)).2⟩

/-- C5 as stated fails: for the all-silence `2 x 2` magnitude matrix (natural
logarithm) the image is constant `0`, and `0` is not a mid-range value. -/
theorem C5_counterexample :
    MainCpp.logSpec Real.log [[0, 0], [0, 0]] = [[0, 0], [0, 0]] ∧
      ¬ ∀ row ∈ MainCpp.logSpec Real.log [[0, 0], [0, 0]], ∀ p ∈ row, MidRange p := by
  have h := main_logSpec_of_const Real.log [[0, 0], [0, 0]] 0 (by simp)
  refine ⟨h, ?_⟩
  rw [h]
  intro hall
  have := hall [0, 0] (by simp) 0 (by simp)
  unfold MidRange at this
  omega

/-! ## C6: the all-zero buffer -/

/-- Mixdown of sample `1` of frame `0` of the stereo buffer `1, 3, 5, 7`: the two
channel values `5` and `7` are summed. -/
theorem spectogram_mixdown_example :
    SpectogramCpp.mixdown ([1, 3, 5, 7] : List ℚ) 0 1 2 2 = some 12 := by
  have h0 : SpectogramCpp.sampleIndex 0 1 2 ((0 : Nat) : Int) = 2 := by decide
  have h1 : SpectogramCpp.sampleIndex 0 1 2 ((1 : Nat) : Int) = 3 := by decide
  have e0 : toSizeT 2 = 2 := by decide
  have e1 : toSizeT 3 = 3 := by decide
  rw [SpectogramCpp.mixdown, SpectogramCpp.mixdown, SpectogramCpp.mixdown, h0, h1]
  unfold readSample
  rw [e0, e1]
  norm_num

theorem allDefined_map {α β : Type} (f : α → Option β) (g : α → β) (l : List α)
    (h : ∀ x ∈ l, f x = some (g x)) : allDefined (l.map f) = some (l.map g) := by
  induction l with
  | nil => rfl
  | cons y l ih =>
    rw [List.map_cons, List.map_cons, h y (List.mem_cons_self y l), allDefined,
      ih fun x hx => h x (List.mem_cons_of_mem y hx)]
    rfl

theorem allDefined_of_none_mem {α : Type} (l : List (Option α)) (h : none ∈ l) :
    allDefined l = none := by
  induction l with
  | nil => simp at h
  | cons y l ih =>
    cases y with
    | none => rfl
    | some a =>
      rcases List.mem_cons.1 h with hy | hl
      · cases hy
      · rw [allDefined, ih hl]
        rfl

theorem readSample_zero (audio : List ℝ) (hz : ∀ x ∈ audio, x = 0) (idx : Int)
    (h0 : 0 ≤ idx) (h1 : idx < audio.length) (h2 : idx < 18446744073709551616) :
    readSample audio idx = some 0 := by
  have hs : (toSizeT idx : Int) = idx := toSizeT_of_nonneg h0 h2
  have hlt : toSizeT idx < audio.length := by omega
  unfold readSample
  rw [List.getElem?_eq_getElem hlt]
  exact congrArg some (hz _ (List.getElem_mem hlt))

theorem spectogram_mixdown_zero (audio : List ℝ) (hz : ∀ x ∈ audio, x = 0)
    (m chan t i : Int) (hC : 1 ≤ chan) (hsz : m * chan ≤ 2147483648)
    (hfit : m * chan ≤ (audio.length : Int)) (ht : 0 ≤ t) (hi : 0 ≤ i)
    (hlast : t * 256 + i + 1 ≤ m) :
    ∀ n : Nat, (n : Int) ≤ chan → SpectogramCpp.mixdown audio t i chan n = some 0 := by
  intro n
  induction n with
  | zero => intro _; rfl
  | succ n ih =>
    intro hn
    have hc : (n : Int) < chan := by push_cast at hn; omega
    have hidx := spectogram_sampleIndex_exact hC hsz ht hi (by omega) hc hlast
    obtain ⟨h1, h2, h3⟩ := interleaved_lt hC ht hi (c := (n : Int)) hc hlast
    rw [SpectogramCpp.mixdown, ih (by omega), hidx,
      readSample_zero audio hz _ (by omega) (by omega) (by omega)]
    simp

theorem spectogram_window_read (i : Int) (h0 : 0 ≤ i) (h1 : i < 1024) :
    ∃ w, readSample (SpectogramCpp.window SpectogramCpp.NFFT) i = some w := by
  have hs : (toSizeT i : Int) = i := toSizeT_of_nonneg h0 (by omega)
  have hlen := main_window_length 1024
  have hlt : toSizeT i < (SpectogramCpp.window SpectogramCpp.NFFT).length := by
    rw [spectogram_window_eq]
    unfold SpectogramCpp.NFFT
    have : ((1024 : Nat) : Int) = 1024 := rfl
    rw [← this, hlen]
    omega
  exact ⟨_, List.getElem?_eq_getElem hlt⟩

theorem spectogram_inSample_zero (audio : List ℝ) (hz : ∀ x ∈ audio, x = 0)
    (m chan t i : Int) (hC : 1 ≤ chan) (hsz : m * chan ≤ 2147483648)
    (hfit : m * chan ≤ (audio.length : Int)) (ht : 0 ≤ t) (hi : 0 ≤ i)
    (hi1 : i < 1024) (hlast : t * 256 + i + 1 ≤ m) :
    SpectogramCpp.inSample audio chan t i = some 0 := by
  obtain ⟨w, hw⟩ := spectogram_window_read i hi hi1
  unfold SpectogramCpp.inSample
  rw [spectogram_mixdown_zero audio hz m chan t i hC hsz hfit ht hi hlast chan.toNat
    (by omega), hw]
  simp

theorem getD_of_all_zero (l : List ℝ) (hz : ∀ x ∈ l, x = 0) (j : Nat) : l.getD j 0 = 0 := by
  rw [List.getD_eq_getElem?_getD]
  by_cases hj : j < l.length
  · rw [List.getElem?_eq_getElem hj]
    exact hz _ (List.getElem_mem hj)
  · rw [List.getElem?_eq_none (by omega)]
    rfl

/-- The transform of a zero frame is zero in every bin. -/
theorem fftwExecute_zero (n : Int) (x : List ℝ) (hz : ∀ v ∈ x, v = 0) (k : Int) :
    fftwExecute n x k = (0, 0) := by
  unfold fftwExecute dftBin
  simp only [getD_of_all_zero x hz, zero_mul, Finset.sum_const_zero, neg_zero]

theorem spectogram_mag_zero : SpectogramCpp.mag (0, 0) = 0 := by
  simp [SpectogramCpp.mag, SpectogramCpp.hypot]

theorem foldl_add_zero (out : Int → ℝ × ℝ) (h : ∀ k, out k = (0, 0)) (l : List Int) :
    l.foldl (fun acc k => acc + SpectogramCpp.mag (out k)) 0 = 0 := by
  induction l with
  | nil => rfl
  | cons k l ih =>
    rw [List.foldl_cons, h k, spectogram_mag_zero, add_zero]
    exact ih

theorem spectogram_bands_zero (out : Int → ℝ × ℝ) (h : ∀ k, out k = (0, 0)) :
    SpectogramCpp.bands out = List.replicate 8 (F32.fin 0) := by
  unfold SpectogramCpp.bands
  rw [forRange_NBANDS]
  simp only [List.map_cons, List.map_nil, foldl_add_zero out h, zero_div, toF32_zero]
  rfl

section SilentFrame

variable {α : Type} [LinearOrderedField α] [FloorRing α]

theorem spectogram_silent_denominator :
    F32.add (SpectogramCpp.maxElement (List.replicate 8 (F32.fin (0 : α))))
      (toF32 (1 / 1000000)) = F32.fin (8796093 / 8796093022208) := by
  have hmax : SpectogramCpp.maxElement (List.replicate 8 (F32.fin (0 : α))) = F32.fin 0 := by
    simp [List.replicate, SpectogramCpp.maxElement, F32.lt]
  rw [hmax, toF32_eps]
  have hadd : F32.add (F32.fin (0 : α)) (F32.fin (8796093 / 8796093022208)) =
      toF32 (0 + 8796093 / 8796093022208) := rfl
  rw [hadd, zero_add, toF32_eps_idem]

/-- In a frame of eight zero bands the normalised value of a band is `0`. -/
theorem spectogram_normVal_zero :
    SpectogramCpp.normVal (List.replicate 8 (F32.fin (0 : α))) (F32.fin 0) = F32.fin 0 := by
  unfold SpectogramCpp.normVal
  rw [spectogram_silent_denominator]
  have hne : ¬ ((8796093 / 8796093022208 : α) = 0) := by norm_num
  have hdiv : F32.div (F32.fin (0 : α)) (F32.fin (8796093 / 8796093022208)) =
      toF32 (0 / (8796093 / 8796093022208)) := by
    simp only [F32.div, if_neg hne]
  rw [hdiv, zero_div, toF32_zero]

/-- In a frame of eight zero bands the radius of a band is the floor `60`. -/
theorem spectogram_radius_zero :
    SpectogramCpp.radius (List.replicate 8 (F32.fin (0 : α))) (F32.fin 0) = F32.fin 60 := by
  unfold SpectogramCpp.radius
  rw [spectogram_normVal_zero, spectogram_maxRadius_eq, toF32_sixty]
  have hmul : F32.mul (F32.fin (0 : α)) (F32.fin 270) = toF32 (0 * 270) := rfl
  rw [hmul, zero_mul, toF32_zero]
  have hc : F32.lt (F32.fin (0 : α)) (F32.fin 60) = true := by
    simp only [F32.lt, decide_eq_true_eq]; norm_num
  rw [if_pos hc]
  have hadd : F32.add (F32.fin (0 : α)) (F32.fin 60) = toF32 (0 + 60) := rfl
  rw [hadd, zero_add, toF32_sixty]

end SilentFrame

/-- Band energies of a frame all of whose samples are defined and zero. -/
theorem spectogram_frameBands_zero (audio : List ℝ) (hz : ∀ x ∈ audio, x = 0)
    (frames chan t : Int) (hN : 1024 ≤ frames) (hC : 1 ≤ chan)
    (hsz : (256 * ((frames - 1024) / 256) + 1024) * chan ≤ 2147483648)
    (hlen : (audio.length : Int) = frames * chan)
    (ht : 0 ≤ t) (ht1 : t < SpectogramCpp.numFrames frames) :
    SpectogramCpp.frameBands audio chan t = some (List.replicate 8 (F32.fin 0)) := by
  obtain ⟨hmf, hfr, hmc⟩ := framed_part_bounds hN hC hsz
  rw [spectogram_numFrames_of_ge hN hfr] at ht1
  have hin : SpectogramCpp.inFrame audio chan t =
      some ((forRange SpectogramCpp.NFFT).map fun _ => (0 : ℝ)) := by
    unfold SpectogramCpp.inFrame
    apply allDefined_map
    intro i hi
    rw [mem_forRange] at hi
    have hi1 : i < 1024 := hi.2
    exact spectogram_inSample_zero audio hz _ chan t i hC hsz (by rw [hlen]; exact hmc) ht
      hi.1 hi1 (frame_sample_lt ht1 hi1)
  have hzero : ∀ v ∈ (forRange SpectogramCpp.NFFT).map (fun _ => (0 : ℝ)), v = 0 := by
    intro v hv
    rw [List.mem_map] at hv
    obtain ⟨_, _, rfl⟩ := hv
    rfl
  unfold SpectogramCpp.frameBands SpectogramCpp.spectrum
  rw [hin, Option.map_some', Option.map_some',
    spectogram_bands_zero _ (fun k => fftwExecute_zero SpectogramCpp.NFFT _ hzero k)]

/-- Within the `int` range silence gives floor rings: for every all-zero buffer with
`frames ≥ N` samples per channel, `chan ≥ 1` channels and a framed part of at most
`2^31` interleaved samples, the visualizer computes, in every frame of the run,
8 normalised band values equal to `0` and 8 ring radii equal to `60`; in particular
every canvas it writes (frames with `t mod 6 = 0`) has its 8 radii equal to `60`. -/
theorem silence_gives_floor_rings_of_fit (audio : List ℝ) (frames chan : Int)
    (hN : 1024 ≤ frames) (hC : 1 ≤ chan)
    (hsz : (256 * ((frames - 1024) / 256) + 1024) * chan ≤ 2147483648)
    (hlen : (audio.length : Int) = frames * chan) (hz : ∀ x ∈ audio, x = 0) :
    SilentRings audio frames chan ∧
    ∀ canvas ∈ (SpectogramCpp.main 2 true true frames
        (SpectogramCpp.frameRadii audio chan)).written,
      canvas = some (List.replicate 8 (F32.fin 60)) := by
  have hsil : SilentRings audio frames chan := by
    intro t ht ht1
    have hb := spectogram_frameBands_zero audio hz frames chan t hN hC hsz hlen ht ht1
    unfold SpectogramCpp.frameNormVals SpectogramCpp.frameRadii SpectogramCpp.ringRadii
    rw [hb]
    simp only [Option.map_some', List.map_replicate, spectogram_normVal_zero,
      spectogram_radius_zero, and_self]
  refine ⟨hsil, ?_⟩
  intro canvas hc
  have hw := (spectogram_foldl_loopBody (SpectogramCpp.frameRadii audio chan)
    (forRange (SpectogramCpp.numFrames frames)) { drawn := [], written := [] }).2
  have hmain : (SpectogramCpp.main 2 true true frames
      (SpectogramCpp.frameRadii audio chan)).written =
      (SpectogramCpp.mainLoop (SpectogramCpp.frameRadii audio chan)
        (SpectogramCpp.numFrames frames)).written := rfl
  rw [hmain] at hc
  unfold SpectogramCpp.mainLoop at hc
  rw [hw, List.nil_append, List.mem_map] at hc
  obtain ⟨t, ht, rfl⟩ := hc
  have ht' := mem_forRange.1 (List.mem_filter.1 ht).1
  exact (hsil t ht'.1 ht'.2).2

/-- One second of stereo silence at 48000 Hz: `184` frames, frame `180` is one of
the written ones, and every frame has radii `60`. -/
theorem silence_one_second_stereo :
    SilentRings (List.replicate 96000 0) 48000 2 ∧
      SpectogramCpp.numFrames 48000 = 184 ∧ Int.tmod 180 6 = 0 :=
  ⟨(silence_gives_floor_rings_of_fit (List.replicate 96000 0) 48000 2 (by decide) (by decide)
      (by decide) (by rw [List.length_replicate]; rfl)
      (fun x hx => (List.mem_replicate.1 hx).2)).1,
    by decide, by decide⟩

/-- C6, the code at a long silent buffer: for the all-zero stereo buffer of
`2^30 + 1024` samples per channel and the last frame (`t = 4194304`), the subscript
of the first sample wraps in `int`, the read is outside the buffer, and the frame
has neither defined samples nor defined radii; the silent-buffer contract fails. -/
theorem C6_silent_frame_undefined :
    SpectogramCpp.numFrames 1073742848 = 4194305 ∧
    readSample (List.replicate 2147485696 (0 : ℝ))
      (SpectogramCpp.sampleIndex 4194304 0 2 0) = none ∧
    SpectogramCpp.inFrame (List.replicate 2147485696 (0 : ℝ)) 2 4194304 = none ∧
    SpectogramCpp.frameRadii (List.replicate 2147485696 (0 : ℝ)) 2 4194304 = none ∧
    ¬ SilentRings (List.replicate 2147485696 0) 1073742848 2 := by
  have hn : SpectogramCpp.numFrames 1073742848 = 4194305 := by decide
  have hidx : toSizeT (SpectogramCpp.sampleIndex 4194304 0 2 0) = 18446744071562067968 := by
    decide
  have hread : readSample (List.replicate 2147485696 (0 : ℝ))
      (SpectogramCpp.sampleIndex 4194304 0 2 0) = none := by
    unfold readSample
    rw [hidx, List.getElem?_replicate]
    simp
  have hmix : SpectogramCpp.mixdown (List.replicate 2147485696 (0 : ℝ)) 4194304 0 2
      (2 : Int).toNat = none := by
    have h2 : (2 : Int).toNat = 1 + 1 := by decide
    rw [h2, SpectogramCpp.mixdown, SpectogramCpp.mixdown, SpectogramCpp.mixdown]
    have h0 : ((0 : Nat) : Int) = 0 := rfl
    rw [h0, hread]
    rfl
  have hin : SpectogramCpp.inSample (List.replicate 2147485696 (0 : ℝ)) 2 4194304 0 = none := by
    unfold SpectogramCpp.inSample
    rw [hmix]
    rfl
  have hfr : SpectogramCpp.inFrame (List.replicate 2147485696 (0 : ℝ)) 2 4194304 = none := by
    unfold SpectogramCpp.inFrame
    apply allDefined_of_none_mem
    rw [← hin]
    exact List.mem_map_of_mem _ (mem_forRange.2 ⟨by decide, by decide⟩)
  have hrad : SpectogramCpp.frameRadii (List.replicate 2147485696 (0 : ℝ)) 2 4194304 = none := by
    unfold SpectogramCpp.frameRadii SpectogramCpp.frameBands SpectogramCpp.spectrum
    rw [hfr]
    rfl
  refine ⟨hn, hread, hfr, hrad, ?_⟩
  intro h
  have h1 := (h 4194304 (by decide) (by rw [hn]; decide)).2
  rw [hrad] at h1
  exact Option.noConfusion h1

end Soundwave
